import Mathlib

/-!
Verification of the SCP03 implementation in asterix/SCP03.py.

The Python source is shallowly embedded: byte strings become `List Nat`
(each entry < 256), stateful methods of class `SCP03` become functions
`SCP03 → ... → Option (SCP03 × ...)` (a Python exception — failed assert,
AttributeError, TypeError or struct.error — is `none`), and the attributes
that may be absent on the Python object are `Option` fields.  The AES
primitive itself comes from PyCrypto in the source; it is modelled here
directly from FIPS-197 (the S-boxes are given as packed 256-byte tables,
one byte per entry of the standard tables).  `pad80`/`unpad80` come from
the repository's `formutil` module, whose source is not part of the
snapshot; they are modelled from the spec.

Caveat on exception states: when a Python method raises after having
already mutated `self` (e.g. `wrapAPDU` raising on an over-long Lc after
incrementing `cmdCount`), the embedding collapses the call to `none` and
the caller keeps the pre-call state.  All claims below only concern calls
that either succeed or fail before the first mutation, so this does not
affect any verdict.
-/

set_option maxRecDepth 1000000

/-! ## AES (modelled from FIPS-197; the source delegates to PyCrypto) -/

/-- Multiplication by x in GF(2^8) modulo x^8+x^4+x^3+x+1. -/
def xtime (x : Nat) : Nat :=
  if x &&& 0x80 = 0 then (x <<< 1) &&& 255 else ((x <<< 1) ^^^ 0x1B) &&& 255

/-- AES S-box, packed little-endian into one natural number (byte i of
`sboxN` is S-box(i), i.e. the standard FIPS-197 table). -/
def sboxN : Nat := 2869618975290639062594974519597816386035077209210385677284518162336985023502962151465775969507961862820568736543004676439868535775640188584098917533413284844376797297285941524888791401501466624530423689326528054213168201056672989590893583853414110162539122864583953358348775951166211353578440977400428507475679327181038682772945817200201960445064847785221508011893952350688324234443749897213621340677040612747745615276448919507935121141307752692835344166708617454322778699219895865633266409040561742768581056182730443599545881830075941537620590442514083341749674612746994879540562701631131184186066652929592955206755

/-- AES inverse S-box, packed the same way as `sboxN`. -/
def invSboxN : Nat := 15785769749828884342349381641981096363179738000380205650940338083111619982568718420166261191398703005748170232611805704157196303061330872280026969925224128193193768962594508714770967646139604422718174787315048227180018877623049221087186576642191304514338137614235628241783007805847129270530950856841486400764657112140097236091222567730363620332611309375046737430203438830593833719428588466121688739068564421474273450162064709239629809347626728710072303178617319436726577534667237755444692000788692193415136619289353224918429728194544458916874716857284226411602766869706570927007876872095880586785662942963508062062930

def sbox (b : Nat) : Nat := (sboxN >>> (8 * b)) &&& 255

def invSbox (b : Nat) : Nat := (invSboxN >>> (8 * b)) &&& 255

def subWord (w : List Nat) : List Nat := w.map sbox

def rotWord (w : List Nat) : List Nat := w.drop 1 ++ w.take 1

def xorW (a b : List Nat) : List Nat := List.zipWith (fun x y => x ^^^ y) a b

/-- Round constants: rconB 0 = 0x01, doubling in GF(2^8). -/
def rconB : Nat → Nat
  | 0 => 1
  | j+1 => xtime (rconB j)

/-- One step of the FIPS-197 key expansion: the next 4-byte word given the
words generated so far. -/
def mkWord (Nk : Nat) (acc : List (List Nat)) : List Nat :=
  let i := acc.length
  let prev := acc.getD (i - 1) []
  let old := acc.getD (i - Nk) []
  let temp :=
    if i % Nk = 0 then xorW (subWord (rotWord prev)) [rconB (i / Nk - 1), 0, 0, 0]
    else if 6 < Nk ∧ i % Nk = 4 then subWord prev
    else prev
  xorW old temp

def expandAux (Nk : Nat) : Nat → List (List Nat) → List (List Nat)
  | 0, acc => acc
  | f+1, acc => expandAux Nk f (acc ++ [mkWord Nk acc])

def chunksF : Nat → List Nat → List (List Nat)
  | 0, _ => []
  | n+1, l => l.take 16 :: chunksF n (l.drop 16)

def initWords : Nat → List Nat → List (List Nat)
  | 0, _ => []
  | n+1, l => l.take 4 :: initWords n (l.drop 4)

/-- The Nr+1 AES round keys (16 bytes each) for a 16/24/32-byte key. -/
def roundKeys (key : List Nat) : List (List Nat) :=
  let Nk := key.length / 4
  let total := 4 * (Nk + 7)
  let words := expandAux Nk (total - Nk) (initWords Nk key)
  chunksF (Nk + 7) (words.foldr (· ++ ·) [])

def subBytes (l : List Nat) : List Nat := l.map sbox

def invSubBytes (l : List Nat) : List Nat := l.map invSbox

/-- ShiftRows on the flat 16-byte state (index r+4c holds state row r,
column c, as in FIPS-197). -/
def shiftRows (l : List Nat) : List Nat :=
  let g := fun i => l.getD i 0
  [g 0, g 5, g 10, g 15, g 4, g 9, g 14, g 3, g 8, g 13, g 2, g 7, g 12, g 1, g 6, g 11]

def invShiftRows (l : List Nat) : List Nat :=
  let g := fun i => l.getD i 0
  [g 0, g 13, g 10, g 7, g 4, g 1, g 14, g 11, g 8, g 5, g 2, g 15, g 12, g 9, g 6, g 3]

def mul2 (x : Nat) : Nat := xtime x
def mul3 (x : Nat) : Nat := xtime x ^^^ x
def mul9 (x : Nat) : Nat := xtime (xtime (xtime x)) ^^^ x
def mul11 (x : Nat) : Nat := xtime (xtime (xtime x)) ^^^ xtime x ^^^ x
def mul13 (x : Nat) : Nat := xtime (xtime (xtime x)) ^^^ xtime (xtime x) ^^^ x
def mul14 (x : Nat) : Nat := xtime (xtime (xtime x)) ^^^ xtime (xtime x) ^^^ xtime x

def mixCol (a b c d : Nat) : List Nat :=
  [mul2 a ^^^ mul3 b ^^^ c ^^^ d,
   a ^^^ mul2 b ^^^ mul3 c ^^^ d,
   a ^^^ b ^^^ mul2 c ^^^ mul3 d,
   mul3 a ^^^ b ^^^ c ^^^ mul2 d]

def invMixCol (a b c d : Nat) : List Nat :=
  [mul14 a ^^^ mul11 b ^^^ mul13 c ^^^ mul9 d,
   mul9 a ^^^ mul14 b ^^^ mul11 c ^^^ mul13 d,
   mul13 a ^^^ mul9 b ^^^ mul14 c ^^^ mul11 d,
   mul11 a ^^^ mul13 b ^^^ mul9 c ^^^ mul14 d]

def mixColumns (l : List Nat) : List Nat :=
  let g := fun i => l.getD i 0
  mixCol (g 0) (g 1) (g 2) (g 3) ++ mixCol (g 4) (g 5) (g 6) (g 7) ++
  mixCol (g 8) (g 9) (g 10) (g 11) ++ mixCol (g 12) (g 13) (g 14) (g 15)

def invMixColumns (l : List Nat) : List Nat :=
  let g := fun i => l.getD i 0
  invMixCol (g 0) (g 1) (g 2) (g 3) ++ invMixCol (g 4) (g 5) (g 6) (g 7) ++
  invMixCol (g 8) (g 9) (g 10) (g 11) ++ invMixCol (g 12) (g 13) (g 14) (g 15)

def addRoundKey (rk s : List Nat) : List Nat := List.zipWith (fun x y => x ^^^ y) s rk

def encRounds : List (List Nat) → List Nat → List Nat
  | [], s => s
  | [k], s => addRoundKey k (shiftRows (subBytes s))
  | k :: k' :: t, s => encRounds (k' :: t) (addRoundKey k (mixColumns (shiftRows (subBytes s))))

def decRounds : List (List Nat) → List Nat → List Nat
  | [], b => b
  | [k], b => invSubBytes (invShiftRows (addRoundKey k b))
  | k :: k' :: t, b => invSubBytes (invShiftRows (invMixColumns (addRoundKey k (decRounds (k' :: t) b))))

/-- AES block encryption (ECB on one 16-byte block). -/
def aesEncBlock (key block : List Nat) : List Nat :=
  match roundKeys key with
  | [] => block
  | k0 :: rest => encRounds rest (addRoundKey k0 block)

/-- AES block decryption, the literal inverse of `aesEncBlock`. -/
def aesDecBlock (key block : List Nat) : List Nat :=
  match roundKeys key with
  | [] => block
  | k0 :: rest => addRoundKey k0 (decRounds rest block)

/-- CBC encryption with fuel (the fuel bounds the number of 16-byte
blocks; `cbcEnc` instantiates it with the data length). -/
def cbcEncF (key : List Nat) : Nat → List Nat → List Nat → List Nat
  | 0, _, _ => []
  | f+1, iv, data =>
    if data = [] then [] else
      let c := aesEncBlock key (List.zipWith (fun x y => x ^^^ y) iv (data.take 16))
      c ++ cbcEncF key f c (data.drop 16)

def cbcEnc (key iv data : List Nat) : List Nat := cbcEncF key data.length iv data

def cbcDecF (key : List Nat) : Nat → List Nat → List Nat → List Nat
  | 0, _, _ => []
  | f+1, iv, data =>
    if data = [] then [] else
      let c := data.take 16
      List.zipWith (fun x y => x ^^^ y) iv (aesDecBlock key c) ++ cbcDecF key f c (data.drop 16)

def cbcDec (key iv data : List Nat) : List Nat := cbcDecF key data.length iv data

/-! ## Byte-string helpers -/

/-- Big-endian encoding of `v` into exactly `k` bytes (the embedding of
Python `pack`). -/
def beBytes : Nat → Nat → List Nat
  | 0, _ => []
  | k+1, v => beBytes k (v / 256) ++ [v % 256]

/-- Big-endian value of a byte string (the embedding of `s2int`). -/
def beNat (l : List Nat) : Nat := l.foldl (fun a b => a * 256 + b) 0

/-- Last `n` elements of a list (Python `l[-n:]` for nonempty suffixes). -/
def lastN (n : Nat) (l : List Nat) : List Nat := l.drop (l.length - n)

/-- Modelled from the spec: `formutil.pad80` (not in the source snapshot) —
append 0x80 and then zero bytes up to the next multiple of `bs`, always
padding, per the ISO/IEC 7816-4 convention described in the spec. -/
def pad80 (l : List Nat) (bs : Nat) : List Nat :=
  l ++ 0x80 :: List.replicate (bs - 1 - l.length % bs) 0

def dropTrailingZeros (l : List Nat) : List Nat := (l.reverse.dropWhile (· == 0)).reverse

/-- Modelled from the spec: `formutil.unpad80` (not in the source
snapshot) — strip trailing zero bytes and then a mandatory 0x80
terminator, failing if the terminator is absent. -/
def unpad80 (l : List Nat) (bs : Nat) : Option (List Nat) :=
  let t := dropTrailingZeros l
  if t.getLast? = some 0x80 then some (t.take (t.length - 1)) else none

/-! ## CMAC and KDF (SCP03.py lines 80-129) -/

/-- Embedding of `polyMulX` from the source, including its detour through
two signed 64-bit halves (`unpack(">qq")`). -/
def polyMulX (poly : List Nat) : List Nat :=
  let h := beNat (poly.take 8)
  let lo := beNat (poly.drop 8)
  let v0 : Int := if h < 2 ^ 63 then (h : Int) else (h : Int) - 2 ^ 64
  let v1 : Int := if lo < 2 ^ 63 then (lo : Int) else (lo : Int) - 2 ^ 64
  let carry : Nat := if v1 < 0 then 1 else 0
  let v1s : Nat := ((v1 * 2) % (2 ^ 64 : Int)).toNat
  let v1x : Nat := if v0 < 0 then v1s ^^^ 0x87 else v1s
  let v0s : Nat := ((v0 * 2) % (2 ^ 64 : Int)).toNat + carry
  beBytes 8 v0s ++ beBytes 8 v1x

/-- XOR the last 16 bytes of `l` with `xk` (the in-place loop of `CMAC`). -/
def xorLast16 (l xk : List Nat) : List Nat :=
  l.take (l.length - 16) ++ List.zipWith (fun x y => x ^^^ y) (lastN 16 l) xk

/-- Embedding of the source `CMAC` function. -/
def CMACf (key data : List Nat) : List Nat :=
  let kcv := aesEncBlock key (List.replicate 16 0)
  let xorKey1 := polyMulX kcv
  let xorKey2 := polyMulX xorKey1
  let sLB := data.length % 16
  let padded := if 0 < sLB ∨ data.length = 0 then data ++ 0x80 :: List.replicate (16 - sLB - 1) 0 else data
  let xorkey := if 0 < sLB ∨ data.length = 0 then xorKey2 else xorKey1
  lastN 16 (cbcEnc key (List.replicate 16 0) (xorLast16 padded xorkey))

def KDFaux (key : List Nat) (c L : Nat) (ctx : List Nat) : Nat → List Nat
  | 0 => []
  | n+1 => KDFaux key c L ctx n ++
      CMACf key (List.replicate 11 0 ++ [c, 0, L / 256 % 256, L % 256, n+1] ++ ctx)

/-- Embedding of the source `KDF` function ([GP AmD] 4.1.5). -/
def KDF (key : List Nat) (c L : Nat) (ctx : List Nat) : List Nat :=
  (KDFaux key c L ctx ((L + 127) / 128)).take (L / 8)

/-! ## The spec-side description of CMAC, for the refinement claim C7 -/

/-- Written from the words of the spec (section 4.1): shift the big-endian
128-bit block left by one bit and XOR 0x87 into the low byte iff the
pre-shift most significant bit was set. -/
def specMulX (n : Nat) : Nat :=
  let sh := (2 * n) % 2 ^ 128
  if 2 ^ 127 ≤ n then sh ^^^ 0x87 else sh

/-- Written from the words of the spec (section 4.1, NIST SP 800-38B):
K1 = mulX(AES_K(0^16)), K2 = mulX(K1); a nonempty 16-byte-multiple message
has its last block XORed with K1, otherwise the message is padded with
0x80 then zeros and the last block is XORed with K2; the tag is the final
AES-CBC ciphertext block under a zero IV. -/
def cmacSpec (key data : List Nat) : List Nat :=
  let K1 := beBytes 16 (specMulX (beNat (aesEncBlock key (List.replicate 16 0))))
  let K2 := beBytes 16 (specMulX (beNat K1))
  let aligned := data.length % 16 = 0 ∧ data ≠ []
  let m := if aligned then data else data ++ 0x80 :: List.replicate (15 - data.length % 16) 0
  let xk := if aligned then K1 else K2
  lastN 16 (cbcEnc key (List.replicate 16 0) (xorLast16 m xk))

/-! ## DEK (SCP03.py lines 132-153) -/

/-- Embedding of `DEK.encrypt`: pads with 0x80 and zeros only when the
data is not 16-byte aligned, then AES-CBC encrypts under a zero IV. -/
def DEKencrypt (key data : List Nat) : List Nat :=
  let l := data.length % 16
  let d := if 0 < l then data ++ 0x80 :: List.replicate (15 - l) 0 else data
  cbcEnc key (List.replicate 16 0) d

/-- Embedding of `DEK.decrypt`. -/
def DEKdecrypt (key data : List Nat) : Option (List Nat) :=
  if data.length % 16 ≠ 0 then none else some (cbcDec key (List.replicate 16 0) data)

/-! ## The SCP03 session (SCP03.py class SCP03) -/

/-- Session state.  Mandatory constructor attributes are plain fields;
attributes that a Python instance may lack (or that may hold `None`) are
`Option` fields.  `beginRmaSL` models the misspelled attribute name
`'beginRmaSL'` that `wrapAPDU`/`unwrapAPDU` look up in `self.__dict__`
(line 397/455 of the source); no code path ever assigns it, while
`beginRMAC` assigns the differently-spelled `beginRmacSL`. -/
structure SCP03 where
  i : Nat
  SD_AID : List Nat
  keyENC : List Nat
  keyMAC : List Nat
  keyDEK : List Nat
  keyVer : Nat
  seqCounter : Nat
  diverData : List Nat
  logCh : Option Nat := none
  host_challenge : Option (List Nat) := none
  card_challenge : Option (List Nat) := none
  SENC : Option (List Nat) := none
  SMAC : Option (List Nat) := none
  SRMAC : Option (List Nat) := none
  card_cryptogram : Option (List Nat) := none
  host_cryptogram : Option (List Nat) := none
  MACchain : Option (List Nat) := none
  SL : Option Nat := none
  rmacSL : Option Nat := none
  cmdCount : Option Nat := none
  beginRmacSL : Option Nat := none
  beginRmaSL : Option Nat := none
deriving DecidableEq

/-- Embedding of the module-level `logCh` function.  Note the Python
operator precedence: `4 + CLA & 0x0F` parses as `(4 + CLA) & 0x0F`. -/
def logCh (CLA : Nat) : Nat :=
  if CLA &&& 0x40 ≠ 0 then (4 + CLA) &&& 0x0F else CLA &&& 0x03

/-- CLA byte for a given logical channel (the body of `SCP03.CLA`). -/
def claByte (ch : Nat) (zSecure : Bool) (b8 : Nat) : Nat :=
  if ch < 4 then b8 + ch + (if zSecure then 0x04 else 0)
  else b8 + 0x40 + (ch - 4) + (if zSecure then 0x20 else 0)

namespace SCP03

/-- Embedding of the `SCP03.CLA` method (AttributeError when `logCh` was
never set). -/
def CLAf (s : SCP03) (zSecure : Bool) (b8 : Nat) : Option Nat :=
  match s.logCh with
  | none => none
  | some ch => some (claByte ch zSecure b8)

/-- Embedding of `SCP03.initUpdate`. -/
def initUpdate (s : SCP03) (host_challenge : List Nat) (lc : Nat) : Option (SCP03 × List Nat) :=
  if ¬ lc < 20 then none else
  if host_challenge.length ≠ 8 then none else
  let s := { s with logCh := some lc, host_challenge := some host_challenge }
  match s.CLAf false 0x80 with
  | none => none
  | some cla => some (s, [cla, 0x50, s.keyVer, 0, 8] ++ host_challenge)

/-- Embedding of `SCP03.deriveKeys`. -/
def deriveKeys (s : SCP03) (card_challenge : Option (List Nat)) : Option SCP03 :=
  let s := if s.host_challenge = none then { s with host_challenge := some (List.replicate 8 0) } else s
  match s.host_challenge with
  | none => none
  | some hch =>
    let ccRes : Option (List Nat) :=
      if s.i &&& 0x10 ≠ 0 then
        let cc := KDF s.keyENC 2 0x40 (beBytes 3 s.seqCounter ++ s.SD_AID)
        match card_challenge with
        | some p => if p ≠ cc then none else some cc
        | none => some cc
      else
        match card_challenge with
        | some p => if p.length ≠ 8 then none else some p
        | none => none
    match ccRes with
    | none => none
    | some cc =>
      let context := hch ++ cc
      let senc := KDF s.keyENC 4 (8 * s.keyENC.length) context
      let smac := KDF s.keyMAC 6 (8 * s.keyMAC.length) context
      let srmac := KDF s.keyMAC 7 (8 * s.keyMAC.length) context
      some { s with card_challenge := some cc, SENC := some senc, SMAC := some smac,
                    SRMAC := some srmac,
                    card_cryptogram := some (KDF smac 0 0x40 context),
                    host_cryptogram := some (KDF smac 1 0x40 context),
                    MACchain := none }

/-- Embedding of `SCP03.parseInitUpdateResp`.  The legality test on the
`i` byte is `i & ~(M_PSEUDO | M_RMACENC) == 0 and i != M_RMACENC ^ M_RMAC`
with Python's arbitrary-precision `~`, i.e. `ii &&& 0x70 = ii ∧ ii ≠ 0x40`. -/
def parseInitUpdateResp (s : SCP03) (resp : List Nat) : Option SCP03 :=
  if resp.length ≠ 29 ∧ resp.length ≠ 32 then none else
  let diverData := resp.take 10
  let keyInfo := (resp.drop 10).take 3
  let card_chal := (resp.drop 13).take 8
  let card_cryptogram := (resp.drop 21).take 8
  let seqC := resp.drop 29
  let kv := keyInfo.getD 0 0
  let ii := keyInfo.getD 2 0
  if keyInfo.getD 1 0 ≠ 3 then none else
  if ¬(ii &&& 0x70 = ii ∧ ii ≠ 0x40) then none else
  let s := { s with i := ii, keyVer := kv, diverData := diverData }
  let sRes : Option SCP03 :=
    if s.i &&& 0x10 ≠ 0 then
      if seqC.length ≠ 3 then none else some { s with seqCounter := beNat seqC }
    else
      if seqC.length ≠ 0 then none else some s
  match sRes with
  | none => none
  | some s =>
    match deriveKeys s (some card_chal) with
    | none => none
    | some s =>
      match s.card_cryptogram with
      | none => none
      | some cc => if card_cryptogram ≠ cc then none else some s

/-- Embedding of `SCP03.extAuth`.  All validity asserts precede every
assignment to `self` in the source (lines 266-277), so a failed check
leaves the Python object untouched, matching the `none` result here. -/
def extAuth (s : SCP03) (SL : Nat) : Option (SCP03 × List Nat) :=
  if SL &&& 0x10 ≠ 0 ∧ s.i &&& 0x20 = 0 then none else
  if SL &&& 0x20 ≠ 0 ∧ s.i &&& 0x60 ≠ 0x60 then none else
  if SL ∉ [0, 0x01, 0x03, 0x11, 0x13, 0x33] then none else
  let s := { s with SL := some SL, rmacSL := some 0, cmdCount := some 0 }
  let sRes : Option SCP03 := if s.host_cryptogram = none then deriveKeys s none else some s
  match sRes with
  | none => none
  | some s =>
    match s.host_cryptogram, s.SMAC with
    | some hc, some smac =>
      let data2sign := List.replicate 16 0 ++ [0x84, 0x82, SL, 0, 0x10] ++ hc
      let chain := CMACf smac data2sign
      let s := { s with MACchain := some chain }
      match s.CLAf true 0x80 with
      | none => none
      | some cla => some (s, [cla, 0x82, SL, 0, 0x10] ++ hc ++ chain.take 8)
    | _, _ => none

/-- Embedding of `SCP03.checkAPDU`. -/
def checkAPDU (apdu : List Nat) : Option Nat :=
  if apdu.length < 2 then none else
  let ins := apdu.getD 1 0
  if ins = 0xC0 then
    (if apdu.length = 5 ∧ (apdu.drop 2).take 2 = [0, 0] then some 0 else none)
  else
    if ins &&& 0xF0 = 0x60 ∨ ins &&& 0xF0 = 0x90 then none else
    if apdu.length < 5 then none else
    if apdu.length = 5 ∨ apdu.getD 4 0 = apdu.length - 5 then some (apdu.length - 5) else none

/-- The `if 'beginRmaSL' in self.__dict__` prologue of `wrapAPDU` and
`unwrapAPDU`; when the misspelled attribute exists it reads the correctly
spelled `beginRmacSL` (AttributeError when that one is absent) and
deletes it. -/
def rmaTransfer (s : SCP03) : Option SCP03 :=
  match s.beginRmaSL with
  | none => some s
  | some _ =>
    match s.beginRmacSL with
    | none => none
    | some v => some { s with rmacSL := some v, beginRmacSL := none }

/-- Command-mode ICV input: `pack(">QQ", n / 2^64, n % 2^64)` (struct.error
when the high half overflows 64 bits). -/
def icvBytes (n : Nat) : Option (List Nat) :=
  if n / 2 ^ 64 < 2 ^ 64 then some (beBytes 8 (n / 2 ^ 64) ++ beBytes 8 (n % 2 ^ 64)) else none

/-- Response-mode ICV input: the high half is ORed with 0x8000000000000000. -/
def ricvBytes (n : Nat) : Option (List Nat) :=
  if 0x8000000000000000 ||| n / 2 ^ 64 < 2 ^ 64 then
    some (beBytes 8 (0x8000000000000000 ||| n / 2 ^ 64) ++ beBytes 8 (n % 2 ^ 64))
  else none

/-- The logical-channel consistency check of `wrapAPDU`/`unwrapAPDU`
(`assert cla == self.CLA(zSecure, b8)` when channel bits are present). -/
def claCheck (s : SCP03) (zSec : Bool) (cla : Nat) : Option Unit :=
  if (cla &&& 0x40 = 0 ∧ cla &&& 0x03 > 0) ∨ cla &&& 0x40 ≠ 0 then
    match s.CLAf zSec (cla &&& 0x80) with
    | none => none
    | some c => if cla = c then some () else none
  else some ()

/-- The C-ENC stage of `wrapAPDU` (`n` is the already-incremented command
counter). -/
def wrapEnc (s : SCP03) (sl n lc : Nat) (cdata : List Nat) : Option (List Nat × Nat) :=
  if sl &&& 0x02 ≠ 0 ∧ 0 < lc then
    match s.SENC, icvBytes n with
    | some senc, some icvb =>
      let enc := cbcEnc senc (aesEncBlock senc icvb) (pad80 cdata 16)
      if enc.length ≤ 0xFF then some (enc, enc.length) else none
    | _, _ => none
  else some (cdata, lc)

/-- The C-MAC stage of `wrapAPDU` (`hdr` is `apdu[1:4]`). -/
def wrapMac (s : SCP03) (sl scla : Nat) (hdr : List Nat) (lc : Nat) (cdata : List Nat) :
    Option (SCP03 × List Nat × Nat) :=
  if sl &&& 0x01 ≠ 0 then
    if ¬ lc + 8 ≤ 0xFF then none else
    match s.MACchain, s.SMAC with
    | some mc, some smac =>
      let chain := CMACf smac (mc ++ [scla] ++ hdr ++ [lc + 8] ++ cdata)
      some ({ s with MACchain := some chain }, cdata ++ chain.take 8, lc + 8)
    | _, _ => none
  else some (s, cdata, lc)

/-- Embedding of `SCP03.wrapAPDU`. -/
def wrapAPDU (s : SCP03) (apdu : List Nat) : Option (SCP03 × List Nat) :=
  match checkAPDU apdu with
  | none => none
  | some lc =>
  if apdu.getD 1 0 = 0xC0 then some (s, apdu) else
  match rmaTransfer s with
  | none => none
  | some s =>
  match s.cmdCount with
  | none => none
  | some n0 =>
  let s := { s with cmdCount := some (n0 + 1) }
  let cla := apdu.getD 0 0
  let b8 := cla &&& 0x80
  match claCheck s false cla with
  | none => none
  | some _ =>
  match s.SL with
  | none => none
  | some sl =>
  match wrapEnc s sl (n0 + 1) lc (apdu.drop 5) with
  | none => none
  | some (cdata, lc) =>
  match wrapMac s sl (b8 ||| 0x04) ((apdu.drop 1).take 3) lc cdata with
  | none => none
  | some (s, cdata, lc) =>
  match s.CLAf true b8 with
  | none => none
  | some claOut => some (s, [claOut] ++ (apdu.drop 1).take 3 ++ [lc] ++ cdata)

/-- The C-MAC verification stage of `unwrapAPDU`. -/
def unwrapMac (s : SCP03) (sl scla : Nat) (hdr : List Nat) (lc : Nat) (data : List Nat) :
    Option (SCP03 × List Nat × Nat) :=
  if sl &&& 0x01 ≠ 0 then
    if lc < 8 then none else
    let sdata := data.take (data.length - 8)
    match s.MACchain, s.SMAC with
    | some mc, some smac =>
      let chain := CMACf smac (mc ++ [scla] ++ hdr ++ [lc] ++ sdata)
      if lastN 8 data = chain.take 8 then
        some ({ s with MACchain := some chain }, sdata, lc - 8)
      else none
    | _, _ => none
  else some (s, data, lc)

/-- The C-ENC decryption stage of `unwrapAPDU`. -/
def unwrapDec (s : SCP03) (sl n lc : Nat) (data : List Nat) : Option (List Nat × Nat) :=
  if sl &&& 0x02 ≠ 0 ∧ 0 < lc then
    if lc % 16 ≠ 0 then none else
    match s.SENC, icvBytes n with
    | some senc, some icvb =>
      match unpad80 (cbcDec senc (aesEncBlock senc icvb) data) 16 with
      | none => none
      | some d => if d.length = 0 then none else some (d, d.length)
    | _, _ => none
  else some (data, lc)

/-- Embedding of `SCP03.unwrapAPDU`. -/
def unwrapAPDU (s : SCP03) (apdu : List Nat) : Option (SCP03 × List Nat) :=
  match checkAPDU apdu with
  | none => none
  | some lc =>
  if apdu.getD 1 0 = 0xC0 then some (s, apdu) else
  match rmaTransfer s with
  | none => none
  | some s =>
  match s.cmdCount with
  | none => none
  | some n0 =>
  let s := { s with cmdCount := some (n0 + 1) }
  let cla := apdu.getD 0 0
  let b8 := cla &&& 0x80
  if cla &&& 0x04 = 0 then none else
  match claCheck s true cla with
  | none => none
  | some _ =>
  match s.SL with
  | none => none
  | some sl =>
  match unwrapMac s sl (b8 ||| 0x04) ((apdu.drop 1).take 3) lc (apdu.drop 5) with
  | none => none
  | some (s, data, lc) =>
  match unwrapDec s sl (n0 + 1) lc data with
  | none => none
  | some (data, lc) =>
  match s.CLAf false b8 with
  | none => none
  | some claOut => some (s, [claOut] ++ (apdu.drop 1).take 3 ++ [lc] ++ data)

/-- Embedding of `SCP03.unwrapResp`.  The source assigns no attribute of
`self`, so the embedding returns no state. -/
def unwrapResp (s : SCP03) (resp : List Nat) (sw1 sw2 : Nat) : Option (List Nat × Nat × Nat) :=
  let sw := (sw1 <<< 8) + sw2
  if ¬(sw = 0x9000 ∨ sw1 = 0x62 ∨ sw1 = 0x63) then
    (if resp.length ≠ 0 then none else some ([], sw1, sw2))
  else
  match s.SL, s.rmacSL with
  | some sl, some rsl =>
    let macRes : Option (List Nat) :=
      if (sl ||| rsl) &&& 0x10 ≠ 0 then
        if resp.length < 8 then none else
        match s.MACchain, s.SRMAC with
        | some mc, some srmac =>
          let data2sign := mc ++ resp.take (resp.length - 8) ++ [sw1, sw2]
          let rmac := (CMACf srmac data2sign).take 8
          if rmac = lastN 8 resp then some (resp.take (resp.length - 8)) else none
        | _, _ => none
      else some resp
    match macRes with
    | none => none
    | some dresp =>
      if (sl ||| rsl) &&& 0x20 ≠ 0 ∧ 0 < dresp.length then
        if dresp.length % 16 ≠ 0 then none else
        match s.SENC, s.cmdCount with
        | some senc, some n =>
          match ricvBytes n with
          | none => none
          | some icvb =>
            let icv := aesEncBlock senc icvb
            match unpad80 (cbcDec senc icv dresp) 16 with
            | none => none
            | some d => if d.length = 0 then none else some (d, sw1, sw2)
        | _, _ => none
      else some (dresp, sw1, sw2)
  | _, _ => none

/-- Embedding of `SCP03.beginRMAC`.  Note that it assigns `beginRmacSL`
after wrapping, while the wrap prologue looks up `beginRmaSL`. -/
def beginRMAC (s : SCP03) (rmacP1 : Nat) (saltData : Option (List Nat)) : Option (SCP03 × List Nat) :=
  if rmacP1 &&& 0x10 ≠ 0 ∧ s.i &&& 0x20 = 0 then none else
  if rmacP1 &&& 0x20 ≠ 0 ∧ s.i &&& 0x40 = 0 then none else
  if rmacP1 &&& 0x30 ≠ rmacP1 then none else
  if rmacP1 &&& 0x10 = 0 then none else
  match s.SL with
  | none => none
  | some sl =>
  if sl &&& 0x20 ≠ 0 then none else
  if ¬ sl &&& 0x10 < rmacP1 then none else
  if sl &&& 0x01 = 0 then none else
  if ¬(sl &&& 0x02 ≠ 0 ∨ rmacP1 &&& 0x20 = 0) then none else
  let dataRes : Option (List Nat) :=
    match saltData with
    | some sd => if sd.length < 255 then some (sd.length :: sd) else none
    | none => some []
  match dataRes with
  | none => none
  | some data =>
  match wrapAPDU s ([0x80, 0x7A, rmacP1, 1, data.length] ++ data) with
  | none => none
  | some (s, w) => some ({ s with beginRmacSL := some rmacP1 }, w)

end SCP03

/-! ## Concrete test fixtures (section 8 of the spec / Test128 in the source) -/

def keyENCt : List Nat := [0x40,0x41,0x42,0x43,0x44,0x45,0x46,0x47,0x48,0x49,0x4A,0x4B,0x4C,0x4D,0x4E,0x4F]

def keyMACt : List Nat := [0x40,0x11,0x22,0x33,0x44,0x45,0x56,0x67,0x48,0x49,0x4A,0x4B,0x4C,0x4D,0x4E,0x4F]

def keyDEKt : List Nat := [0x98,0x76,0x54,0x32,0x10,0x40,0x41,0x42,0x43,0x44,0x45,0x46,0x47,0x48,0x49,0x4A]

def sdAIDt : List Nat := [0xA0,0,0,0,0x18,0x43,0x4D,0x08,0x09,0x0A,0x0B,0x0C,0,0,0]

def diverDt : List Nat := [0,0,0x50,0xC7,0x60,0x6A,0x8C,0xF6,0x48,0]

def hostCh : List Nat := [8,7,6,5,4,3,2,1]

/-- The configured session of the test suite. -/
def scpT : SCP03 :=
  { i := 0x70, SD_AID := sdAIDt, keyENC := keyENCt, keyMAC := keyMACt, keyDEK := keyDEKt,
    keyVer := 0x30, seqCounter := 0x2A, diverData := diverDt }

/-- The session after `initUpdate(host_challenge, 0)`. -/
def sT0 : SCP03 := { scpT with logCh := some 0, host_challenge := some hostCh }


/-- Derived card challenge for the test parameters (spec S2). -/
def ccL : List Nat := [163, 245, 241, 68, 209, 155, 230, 110]

/-- KDF context `host_challenge ++ card_challenge` for the test parameters. -/
def ctxT : List Nat := hostCh ++ ccL

def sencL : List Nat := [133, 45, 32, 123, 124, 200, 200, 128, 35, 30, 223, 213, 198, 68, 207, 177]

def smacL : List Nat := [113, 49, 185, 54, 159, 61, 25, 133, 14, 105, 25, 205, 51, 33, 82, 62]

def srmacL : List Nat := [181, 112, 170, 31, 222, 24, 249, 23, 155, 92, 189, 66, 216, 147, 157, 5]

def cardCrL : List Nat := [114, 191, 203, 223, 74, 20, 81, 95]

def hostCrL : List Nat := [174, 184, 218, 209, 134, 91, 133, 226]

/-- MAC chain after EXTERNAL AUTHENTICATE with the given SL byte. -/
def chain0L : List Nat := [198, 239, 70, 2, 126, 113, 225, 54, 169, 116, 155, 103, 244, 168, 61, 75]

def chain1L : List Nat := [73, 252, 76, 241, 132, 230, 29, 205, 76, 57, 40, 228, 198, 23, 251, 163]

def chain3L : List Nat := [88, 149, 156, 34, 165, 127, 233, 97, 94, 166, 219, 19, 124, 29, 1, 141]

/-- MAC chain after wrapping the BEGIN R-MAC APDU `80 7A 10 01 00` at SL=1. -/
def chainBRL : List Nat := [84, 117, 51, 99, 60, 50, 60, 170, 84, 15, 187, 208, 131, 157, 20, 208]

/-- MAC chain after wrapping `80 10 00 00 00` from `chain1L`. -/
def chainW1L : List Nat := [212, 102, 78, 28, 176, 124, 174, 225, 214, 246, 103, 247, 53, 210, 187, 45]

/-- MAC chain after wrapping `80 10 00 00 00` from `chainBRL`. -/
def chainC1L : List Nat := [138, 55, 64, 227, 8, 202, 117, 85, 211, 127, 96, 164, 205, 141, 172, 89]

/-- The test session right after key derivation (all S2 values), with the
EXTERNAL AUTHENTICATE fields for security level `sl` and MAC chain `chain`. -/
def sAuth (sl : Nat) (chain : List Nat) : SCP03 :=
  { scpT with
    logCh := some 0, host_challenge := some hostCh, card_challenge := some ccL,
    SENC := some sencL, SMAC := some smacL, SRMAC := some srmacL,
    card_cryptogram := some cardCrL, host_cryptogram := some hostCrL,
    MACchain := some chain, SL := some sl, rmacSL := some 0, cmdCount := some 0 }

/-- The expected response to INITIALIZE UPDATE for the test parameters. -/
def goodResp : List Nat := diverDt ++ [0x30, 3, 0x70] ++ ccL ++ cardCrL ++ [0, 0, 0x2A]

/-- A tampered response: the card challenge bytes are zeroed but the
card cryptogram still equals the host-side recomputed one. -/
def tamperedResp : List Nat := diverDt ++ [0x30, 3, 0x70] ++ List.replicate 8 0 ++ cardCrL ++ [0, 0, 0x2A]

/-- Session state after `beginRMAC(0x10)` on the SL=1 test session. -/
def sBR1 : SCP03 :=
  { sAuth 1 chain1L with
    MACchain := some chainBRL, cmdCount := some 1, beginRmacSL := some 0x10 }

/-- Session state after the subsequent `wrapAPDU` of `80 10 00 00 00`. -/
def sC1 : SCP03 :=
  { sAuth 1 chain1L with
    MACchain := some chainC1L, cmdCount := some 2, beginRmacSL := some 0x10 }


/-- NIST SP 800-38B appendix D.1 AES-128 key. -/
def nistKey : List Nat := [0x2b,0x7e,0x15,0x16,0x28,0xae,0xd2,0xa6,0xab,0xf7,0x15,0x88,0x09,0xcf,0x4f,0x3c]

/-- NIST SP 800-38B appendix D.1 tag for the empty message. -/
def nistTagEmpty : List Nat := [0xbb,0x1d,0x69,0x29,0xe9,0x59,0x37,0x28,0x7f,0xa3,0x7d,0x12,0x9b,0x75,0x67,0x46]

/-! ## Events for the counter-monotonicity claim C3 -/

/-- A session-facing event: an outbound command wrap or an inbound
response unwrap. -/
inductive ScpEv where
  | wrap (apdu : List Nat)
  | uresp (resp : List Nat) (sw1 sw2 : Nat)
deriving DecidableEq

/-- Run a list of events through a session, failing if any of them fails;
`unwrapResp` assigns no attribute in the source, so the state is passed
through unchanged on `uresp`. -/
def runEvs (s : SCP03) : List ScpEv → Option SCP03
  | [] => some s
  | ScpEv.wrap a :: t =>
    match SCP03.wrapAPDU s a with
    | none => none
    | some (s', _) => runEvs s' t
  | ScpEv.uresp r a b :: t =>
    match SCP03.unwrapResp s r a b with
    | none => none
    | some _ => runEvs s t

/-- Number of non-GET-RESPONSE wrap events. -/
def countWraps : List ScpEv → Nat
  | [] => 0
  | ScpEv.wrap a :: t => (if a.getD 1 0 = 0xC0 then 0 else 1) + countWraps t
  | ScpEv.uresp _ _ _ :: t => countWraps t

def evsC3 : List ScpEv :=
  [ScpEv.wrap [0x80, 0x10, 0, 0, 0], ScpEv.uresp [] 0x90 0x00, ScpEv.wrap [0x80, 0xC0, 0, 0, 2]]

def sC3 : SCP03 := { sAuth 1 chain1L with MACchain := some chainW1L, cmdCount := some 1 }

/-! ## The spec-side success condition of parseInitUpdateResp, for C4 -/

/-- The card cryptogram the host recomputes for a response, written from
the spec's key-derivation section: the context pairs the host challenge
with the pseudo-random card challenge (when `i & 0x10`) or the received
one, and card_cryptogram = KDF(S_MAC, 0x00, 64, context). -/
def c4DerivedCryptogram (s : SCP03) (resp : List Nat) : List Nat :=
  let ii := ((resp.drop 10).take 3).getD 2 0
  let hch := s.host_challenge.getD (List.replicate 8 0)
  let cc := if ii &&& 0x10 ≠ 0 then
      KDF s.keyENC 2 0x40 (beBytes 3 (beNat (resp.drop 29)) ++ s.SD_AID)
    else (resp.drop 13).take 8
  let ctx := hch ++ cc
  KDF (KDF s.keyMAC 6 (8 * s.keyMAC.length) ctx) 0 0x40 ctx

/-- The success condition exactly as claim C4 states it: length 29 or 32,
SCP number byte 0x03, legal `i` flags, the 3-byte sequence counter present
exactly when `i & 0x10`, and the received cryptogram equal to the
recomputed one. -/
def c4RespOK (s : SCP03) (resp : List Nat) : Prop :=
  (resp.length = 29 ∨ resp.length = 32) ∧
  ((resp.drop 10).take 3).getD 1 0 = 3 ∧
  (((resp.drop 10).take 3).getD 2 0 &&& 0x70 = ((resp.drop 10).take 3).getD 2 0 ∧
    ((resp.drop 10).take 3).getD 2 0 ≠ 0x40) ∧
  (resp.length = 32 ↔ ((resp.drop 10).take 3).getD 2 0 &&& 0x10 ≠ 0) ∧
  (resp.drop 21).take 8 = c4DerivedCryptogram s resp

/-- The extra condition the code enforces and claim C4 omits: under a
pseudo-random `i`, the received card challenge must equal the recomputed
pseudo-random one. -/
def c4ChallengeOK (s : SCP03) (resp : List Nat) : Prop :=
  ((resp.drop 10).take 3).getD 2 0 &&& 0x10 ≠ 0 →
    (resp.drop 13).take 8 = KDF s.keyENC 2 0x40 (beBytes 3 (beNat (resp.drop 29)) ++ s.SD_AID)

/-- The effective host challenge inside `deriveKeys`: the stored one, or
eight zero bytes when none was set. -/
def hchOf (s : SCP03) : List Nat := s.host_challenge.getD (List.replicate 8 0)

/-- The card challenge `deriveKeys` ends up using: the pseudo-random one
under `i & 0x10`, the provided one otherwise. -/
def ccOf (s : SCP03) (p : List Nat) : List Nat :=
  if s.i &&& 0x10 ≠ 0 then KDF s.keyENC 2 0x40 (beBytes 3 s.seqCounter ++ s.SD_AID) else p

/-- The KDF context `host_challenge ++ card_challenge` used by `deriveKeys`. -/
def ctxOf (s : SCP03) (p : List Nat) : List Nat := hchOf s ++ ccOf s p

/-! ## Length and bound infrastructure -/

theorem xtime_lt (x : Nat) : xtime x < 256 := by
  unfold xtime
  split <;> exact Nat.lt_succ_of_le Nat.and_le_right

theorem sbox_lt (b : Nat) : sbox b < 256 := Nat.lt_succ_of_le Nat.and_le_right

theorem invSbox_lt (b : Nat) : invSbox b < 256 := Nat.lt_succ_of_le Nat.and_le_right

theorem xor_lt_256 {a b : Nat} (ha : a < 256) (hb : b < 256) : a ^^^ b < 256 :=
  Nat.xor_lt_two_pow (n := 8) ha hb

theorem rconB_lt (j : Nat) : rconB j < 256 := by
  cases j with
  | zero => decide
  | succ j => exact xtime_lt _

theorem getD_lt_256 {l : List Nat} (hb : ∀ b ∈ l, b < 256) (i : Nat) : l.getD i 0 < 256 := by
  rcases Nat.lt_or_ge i l.length with h | h
  · rw [List.getD_eq_getElem l 0 h]
    exact hb _ (l.getElem_mem h)
  · rw [List.getD_eq_default l 0 h]
    decide

theorem zipWith_xor_bounded {x y : List Nat} (hx : ∀ a ∈ x, a < 256) (hy : ∀ a ∈ y, a < 256) :
    ∀ c ∈ List.zipWith (fun a b => a ^^^ b) x y, c < 256 := by
  induction x generalizing y with
  | nil => simp
  | cons a x ih =>
    cases y with
    | nil => simp
    | cons b y =>
      intro c hc
      rcases List.mem_cons.mp hc with h | h
      · subst h
        exact xor_lt_256 (hx a (by simp)) (hy b (by simp))
      · exact ih (fun a ha => hx a (by simp [ha])) (fun a ha => hy a (by simp [ha])) c h

theorem shiftRows_length (l : List Nat) : (shiftRows l).length = 16 := rfl

theorem invShiftRows_length (l : List Nat) : (invShiftRows l).length = 16 := rfl

theorem mixColumns_length (l : List Nat) : (mixColumns l).length = 16 := rfl

theorem invMixColumns_length (l : List Nat) : (invMixColumns l).length = 16 := rfl

theorem addRoundKey_length (rk s : List Nat) :
    (addRoundKey rk s).length = min s.length rk.length := by
  simp [addRoundKey]

theorem subBytes_length (l : List Nat) : (subBytes l).length = l.length := by
  simp [subBytes]

theorem subBytes_bounded (l : List Nat) : ∀ b ∈ subBytes l, b < 256 := by
  intro b hb
  rcases List.mem_map.mp hb with ⟨a, _, rfl⟩
  exact sbox_lt a

theorem invSubBytes_bounded (l : List Nat) : ∀ b ∈ invSubBytes l, b < 256 := by
  intro b hb
  rcases List.mem_map.mp hb with ⟨a, _, rfl⟩
  exact invSbox_lt a

theorem shiftRows_bounded {l : List Nat} (hb : ∀ b ∈ l, b < 256) :
    ∀ b ∈ shiftRows l, b < 256 := by
  intro b hbm
  simp only [shiftRows, List.mem_cons, List.not_mem_nil, or_false] at hbm
  rcases hbm with h | h | h | h | h | h | h | h | h | h | h | h | h | h | h | h <;>
    (subst h; exact getD_lt_256 hb _)

theorem invShiftRows_bounded {l : List Nat} (hb : ∀ b ∈ l, b < 256) :
    ∀ b ∈ invShiftRows l, b < 256 := by
  intro b hbm
  simp only [invShiftRows, List.mem_cons, List.not_mem_nil, or_false] at hbm
  rcases hbm with h | h | h | h | h | h | h | h | h | h | h | h | h | h | h | h <;>
    (subst h; exact getD_lt_256 hb _)

theorem mul2_lt {x : Nat} (_ : x < 256) : mul2 x < 256 := xtime_lt x

theorem mul3_lt {x : Nat} (h : x < 256) : mul3 x < 256 := xor_lt_256 (xtime_lt x) h

theorem mul9_lt {x : Nat} (h : x < 256) : mul9 x < 256 := xor_lt_256 (xtime_lt _) h

theorem mul11_lt {x : Nat} (h : x < 256) : mul11 x < 256 :=
  xor_lt_256 (xor_lt_256 (xtime_lt _) (xtime_lt _)) h

theorem mul13_lt {x : Nat} (h : x < 256) : mul13 x < 256 :=
  xor_lt_256 (xor_lt_256 (xtime_lt _) (xtime_lt _)) h

theorem mul14_lt {x : Nat} (_ : x < 256) : mul14 x < 256 :=
  xor_lt_256 (xor_lt_256 (xtime_lt _) (xtime_lt _)) (xtime_lt _)

theorem mixCol_bounded {a b c d : Nat} (ha : a < 256) (hb : b < 256) (hc : c < 256) (hd : d < 256) :
    ∀ x ∈ mixCol a b c d, x < 256 := by
  intro x hx
  simp only [mixCol, List.mem_cons, List.not_mem_nil, or_false] at hx
  rcases hx with h | h | h | h <;> subst h
  · exact xor_lt_256 (xor_lt_256 (xor_lt_256 (mul2_lt ha) (mul3_lt hb)) hc) hd
  · exact xor_lt_256 (xor_lt_256 (xor_lt_256 ha (mul2_lt hb)) (mul3_lt hc)) hd
  · exact xor_lt_256 (xor_lt_256 (xor_lt_256 ha hb) (mul2_lt hc)) (mul3_lt hd)
  · exact xor_lt_256 (xor_lt_256 (xor_lt_256 (mul3_lt ha) hb) hc) (mul2_lt hd)

theorem invMixCol_bounded {a b c d : Nat} (ha : a < 256) (hb : b < 256) (hc : c < 256) (hd : d < 256) :
    ∀ x ∈ invMixCol a b c d, x < 256 := by
  intro x hx
  simp only [invMixCol, List.mem_cons, List.not_mem_nil, or_false] at hx
  rcases hx with h | h | h | h <;> subst h
  · exact xor_lt_256 (xor_lt_256 (xor_lt_256 (mul14_lt ha) (mul11_lt hb)) (mul13_lt hc)) (mul9_lt hd)
  · exact xor_lt_256 (xor_lt_256 (xor_lt_256 (mul9_lt ha) (mul14_lt hb)) (mul11_lt hc)) (mul13_lt hd)
  · exact xor_lt_256 (xor_lt_256 (xor_lt_256 (mul13_lt ha) (mul9_lt hb)) (mul14_lt hc)) (mul11_lt hd)
  · exact xor_lt_256 (xor_lt_256 (xor_lt_256 (mul11_lt ha) (mul13_lt hb)) (mul9_lt hc)) (mul14_lt hd)

theorem mixColumns_bounded {l : List Nat} (hb : ∀ b ∈ l, b < 256) :
    ∀ b ∈ mixColumns l, b < 256 := by
  intro b hbm
  simp only [mixColumns, List.mem_append] at hbm
  rcases hbm with ((h | h) | h) | h <;>
    exact mixCol_bounded (getD_lt_256 hb _) (getD_lt_256 hb _) (getD_lt_256 hb _) (getD_lt_256 hb _) _ h

theorem invMixColumns_bounded {l : List Nat} (hb : ∀ b ∈ l, b < 256) :
    ∀ b ∈ invMixColumns l, b < 256 := by
  intro b hbm
  simp only [invMixColumns, List.mem_append] at hbm
  rcases hbm with ((h | h) | h) | h <;>
    exact invMixCol_bounded (getD_lt_256 hb _) (getD_lt_256 hb _) (getD_lt_256 hb _) (getD_lt_256 hb _) _ h

theorem addRoundKey_bounded {rk s : List Nat} (hk : ∀ b ∈ rk, b < 256) (hs : ∀ b ∈ s, b < 256) :
    ∀ b ∈ addRoundKey rk s, b < 256 :=
  zipWith_xor_bounded hs hk

/-- Words of the key schedule: length 4 and bounded bytes. -/
def WordOK (w : List Nat) : Prop := w.length = 4 ∧ ∀ b ∈ w, b < 256

theorem initWords_length (n : Nat) (l : List Nat) : (initWords n l).length = n := by
  induction n generalizing l with
  | zero => rfl
  | succ n ih => simp [initWords, ih]

theorem initWords_ok (n : Nat) (l : List Nat) (hl : l.length = 4 * n) (hb : ∀ b ∈ l, b < 256) :
    ∀ w ∈ initWords n l, WordOK w := by
  induction n generalizing l with
  | zero => simp [initWords]
  | succ n ih =>
    intro w hw
    rcases List.mem_cons.mp hw with h | h
    · subst h
      refine ⟨?_, fun b hbm => hb b (List.mem_of_mem_take hbm)⟩
      simp only [List.length_take, hl]
      omega
    · refine ih (l.drop 4) ?_ (fun b hbm => hb b (List.mem_of_mem_drop hbm)) w h
      simp [hl]
      omega

theorem xorW_ok {a b : List Nat} (ha : WordOK a) (hb : WordOK b) : WordOK (xorW a b) :=
  ⟨by simp [xorW, ha.1, hb.1], zipWith_xor_bounded ha.2 hb.2⟩

theorem subWord_ok {a : List Nat} (ha : WordOK a) : WordOK (subWord a) := by
  refine ⟨by simp [subWord, ha.1], fun b hb => ?_⟩
  rcases List.mem_map.mp hb with ⟨c, _, rfl⟩
  exact sbox_lt c

theorem rotWord_ok {a : List Nat} (ha : WordOK a) : WordOK (rotWord a) := by
  refine ⟨by simp [rotWord, ha.1], fun b hb => ?_⟩
  rcases List.mem_append.mp hb with h | h
  · exact ha.2 b (List.mem_of_mem_drop h)
  · exact ha.2 b (List.mem_of_mem_take h)

theorem rconWord_ok (j : Nat) : WordOK [rconB j, 0, 0, 0] := by
  refine ⟨rfl, fun b hb => ?_⟩
  simp only [List.mem_cons, List.not_mem_nil, or_false] at hb
  rcases hb with h | h | h | h <;> subst h
  · exact rconB_lt _
  all_goals decide

theorem mkWord_ok (Nk : Nat) (acc : List (List Nat)) (hNk : 0 < Nk) (hne : acc ≠ [])
    (hw : ∀ w ∈ acc, WordOK w) : WordOK (mkWord Nk acc) := by
  have hlen : 0 < acc.length := List.length_pos.mpr hne
  have hprev : WordOK (acc.getD (acc.length - 1) []) := by
    rw [List.getD_eq_getElem _ _ (by omega)]
    exact hw _ (acc.getElem_mem _)
  have hold : WordOK (acc.getD (acc.length - Nk) []) := by
    rw [List.getD_eq_getElem _ _ (by omega)]
    exact hw _ (acc.getElem_mem _)
  unfold mkWord
  refine xorW_ok hold ?_
  split
  · exact xorW_ok (subWord_ok (rotWord_ok hprev)) (rconWord_ok _)
  · split
    · exact subWord_ok hprev
    · exact hprev

theorem expandAux_ok (Nk : Nat) (hNk : 0 < Nk) : ∀ (f : Nat) (acc : List (List Nat)), acc ≠ [] →
    (∀ w ∈ acc, WordOK w) →
    (∀ w ∈ expandAux Nk f acc, WordOK w) ∧ (expandAux Nk f acc).length = acc.length + f := by
  intro f
  induction f with
  | zero => intro acc hne hw; exact ⟨hw, rfl⟩
  | succ f ih =>
    intro acc hne hw
    have hstep : ∀ w ∈ acc ++ [mkWord Nk acc], WordOK w := by
      intro w hwm
      rcases List.mem_append.mp hwm with h | h
      · exact hw w h
      · rcases List.mem_singleton.mp h with rfl
        exact mkWord_ok Nk acc hNk hne hw
    have hne2 : acc ++ [mkWord Nk acc] ≠ [] := by simp
    rcases ih (acc ++ [mkWord Nk acc]) hne2 hstep with ⟨h1, h2⟩
    refine ⟨h1, ?_⟩
    rw [expandAux, h2]
    simp
    omega

theorem flat_length (ws : List (List Nat)) (h4 : ∀ w ∈ ws, WordOK w) :
    (ws.foldr (· ++ ·) []).length = 4 * ws.length := by
  induction ws with
  | nil => rfl
  | cons w ws ih =>
    simp only [List.foldr_cons, List.length_append, List.length_cons]
    rw [ih (fun v hv => h4 v (by simp [hv])), (h4 w (by simp)).1]
    omega

theorem flat_bounded (ws : List (List Nat)) (h4 : ∀ w ∈ ws, WordOK w) :
    ∀ b ∈ ws.foldr (· ++ ·) [], b < 256 := by
  induction ws with
  | nil => simp
  | cons w ws ih =>
    intro b hb
    rcases List.mem_append.mp hb with h | h
    · exact (h4 w (by simp)).2 b h
    · exact ih (fun v hv => h4 v (by simp [hv])) b h

theorem chunksF_length (n : Nat) (l : List Nat) : (chunksF n l).length = n := by
  induction n generalizing l with
  | zero => rfl
  | succ n ih => simp [chunksF, ih]

theorem chunksF_ok (n : Nat) (l : List Nat) (hl : l.length = 16 * n) (hb : ∀ b ∈ l, b < 256) :
    ∀ c ∈ chunksF n l, (c : List Nat).length = 16 ∧ ∀ b ∈ c, b < 256 := by
  induction n generalizing l with
  | zero => simp [chunksF]
  | succ n ih =>
    intro c hc
    rcases List.mem_cons.mp hc with h | h
    · subst h
      refine ⟨?_, fun b hbm => hb b (List.mem_of_mem_take hbm)⟩
      simp only [List.length_take, hl]
      omega
    · refine ih (l.drop 16) ?_ (fun b hbm => hb b (List.mem_of_mem_drop hbm)) c h
      simp [hl]
      omega

/-- Valid AES key: 16, 24 or 32 bytes, all below 256. -/
def KeyOK (key : List Nat) : Prop :=
  (key.length = 16 ∨ key.length = 24 ∨ key.length = 32) ∧ ∀ b ∈ key, b < 256

theorem roundKeys_ok {key : List Nat} (hk : KeyOK key) :
    ∀ c ∈ roundKeys key, (c : List Nat).length = 16 ∧ ∀ b ∈ c, b < 256 := by
  rcases hk with ⟨hlen, hb⟩
  unfold roundKeys
  intro c hc
  have hNk : key.length = 4 * (key.length / 4) := by rcases hlen with h | h | h <;> simp [h]
  have hNkpos : 0 < key.length / 4 := by rcases hlen with h | h | h <;> simp [h]
  have hiw := initWords_ok (key.length / 4) key hNk hb
  have hiwne : initWords (key.length / 4) key ≠ [] := by
    have := initWords_length (key.length / 4) key
    intro hcon
    rw [hcon] at this
    simp at this
    omega
  rcases expandAux_ok (key.length / 4) hNkpos (4 * (key.length / 4 + 7) - key.length / 4)
      (initWords (key.length / 4) key) hiwne hiw with ⟨hok, hcount⟩
  rw [initWords_length] at hcount
  have hcount' : (expandAux (key.length / 4) (4 * (key.length / 4 + 7) - key.length / 4)
      (initWords (key.length / 4) key)).length = 4 * (key.length / 4 + 7) := by
    rw [hcount]; omega
  refine chunksF_ok _ _ ?_ ?_ c hc
  · rw [flat_length _ hok, hcount']
    omega
  · exact flat_bounded _ hok

theorem roundKeys_length {key : List Nat} (hk : KeyOK key) :
    (roundKeys key).length = key.length / 4 + 7 := chunksF_length _ _

theorem encRounds_length (ks : List (List Nat)) (s : List Nat) (hne : ks ≠ [])
    (h16 : ∀ k ∈ ks, (k : List Nat).length = 16) : (encRounds ks s).length = 16 := by
  induction ks generalizing s with
  | nil => exact absurd rfl hne
  | cons k t ih =>
    cases t with
    | nil =>
      simp [encRounds, addRoundKey_length, shiftRows_length, h16 k (by simp)]
    | cons k' t' =>
      rw [encRounds]
      exact ih _ (by simp) (fun a ha => h16 a (by simp [ha]))

theorem encRounds_bounded (ks : List (List Nat)) (s : List Nat)
    (hkb : ∀ k ∈ ks, ∀ b ∈ (k : List Nat), b < 256) (hs : ∀ b ∈ s, b < 256) :
    ∀ b ∈ encRounds ks s, b < 256 := by
  induction ks generalizing s with
  | nil => exact hs
  | cons k t ih =>
    cases t with
    | nil =>
      exact addRoundKey_bounded (hkb k (by simp)) (shiftRows_bounded (subBytes_bounded s))
    | cons k' t' =>
      rw [encRounds]
      refine ih _ (fun a ha => hkb a (by simp [ha])) ?_
      exact addRoundKey_bounded (hkb k (by simp))
        (mixColumns_bounded (shiftRows_bounded (subBytes_bounded s)))

theorem aesEncBlock_length {key : List Nat} (hk : KeyOK key) (b : List Nat) :
    (aesEncBlock key b).length = 16 := by
  unfold aesEncBlock
  have hcnt := roundKeys_length hk
  have hok := roundKeys_ok hk
  have hpos : 0 < (roundKeys key).length := by
    rw [hcnt]
    rcases hk.1 with h | h | h <;> simp [h]
  cases hrk : roundKeys key with
  | nil => rw [hrk] at hpos; simp at hpos
  | cons k0 rest =>
    cases rest with
    | nil =>
      have : (roundKeys key).length = 1 := by rw [hrk]; rfl
      rw [hcnt] at this
      rcases hk.1 with h | h | h <;> (rw [h] at this; omega)
    | cons k1 t =>
      refine encRounds_length _ _ (by simp) (fun a ha => ?_)
      exact (hok a (by rw [hrk]; simp [ha])).1

theorem aesEncBlock_bounded {key : List Nat} (hk : KeyOK key) (b : List Nat)
    (hb : ∀ x ∈ b, x < 256) : ∀ x ∈ aesEncBlock key b, x < 256 := by
  unfold aesEncBlock
  have hok := roundKeys_ok hk
  cases hrk : roundKeys key with
  | nil => exact hb
  | cons k0 rest =>
    refine encRounds_bounded _ _ (fun k hkm => (hok k (by rw [hrk]; simp [hkm])).2) ?_
    exact addRoundKey_bounded (hok k0 (by rw [hrk]; simp)).2 hb

theorem cbcEncF_length {key : List Nat} (hk : KeyOK key) :
    ∀ (f : Nat) (iv data : List Nat), data.length ≤ f → 16 ∣ data.length →
    (cbcEncF key f iv data).length = data.length := by
  intro f
  induction f with
  | zero =>
    intro iv data hle _
    interval_cases h : data.length
    · rw [List.length_eq_zero.mp h]
      rfl
  | succ f ih =>
    intro iv data hle hdvd
    by_cases hnil : data = []
    · subst hnil
      rfl
    · have hpos : 0 < data.length := List.length_pos.mpr hnil
      have h16 : 16 ≤ data.length := Nat.le_of_dvd hpos hdvd |>.trans (Nat.le_refl _) |>.trans_eq rfl
      rw [cbcEncF, if_neg hnil]
      simp only [List.length_append]
      rw [aesEncBlock_length hk _, ih _ _ (by simp; omega) (by simp; omega)]
      simp
      omega

theorem cbcEnc_length {key : List Nat} (hk : KeyOK key) (iv data : List Nat)
    (hdvd : 16 ∣ data.length) : (cbcEnc key iv data).length = data.length :=
  cbcEncF_length hk _ iv data (Nat.le_refl _) hdvd

theorem cbcEncF_bounded {key : List Nat} (hk : KeyOK key) :
    ∀ (f : Nat) (iv data : List Nat), (∀ b ∈ iv, b < 256) → (∀ b ∈ data, b < 256) →
    ∀ b ∈ cbcEncF key f iv data, b < 256 := by
  intro f
  induction f with
  | zero => simp [cbcEncF]
  | succ f ih =>
    intro iv data hiv hdata
    by_cases hnil : data = []
    · simp [cbcEncF, hnil]
    · rw [cbcEncF, if_neg hnil]
      intro b hb
      have hc : ∀ x ∈ aesEncBlock key (List.zipWith (fun x y => x ^^^ y) iv (data.take 16)), x < 256 :=
        aesEncBlock_bounded hk _
          (zipWith_xor_bounded hiv (fun a ha => hdata a (List.mem_of_mem_take ha)))
      rcases List.mem_append.mp hb with h | h
      · exact hc b h
      · exact ih _ _ hc (fun a ha => hdata a (List.mem_of_mem_drop ha)) b h

theorem cbcEnc_bounded {key : List Nat} (hk : KeyOK key) (iv data : List Nat)
    (hiv : ∀ b ∈ iv, b < 256) (hdata : ∀ b ∈ data, b < 256) :
    ∀ b ∈ cbcEnc key iv data, b < 256 :=
  cbcEncF_bounded hk _ iv data hiv hdata

theorem pad80_length (l : List Nat) : (pad80 l 16).length = l.length + (16 - l.length % 16) := by
  have := Nat.mod_lt l.length (y := 16) (by omega)
  simp [pad80]
  omega

theorem pad80_dvd (l : List Nat) : 16 ∣ (pad80 l 16).length := by
  rw [pad80_length]
  have h1 : l.length % 16 < 16 := Nat.mod_lt _ (by omega)
  have h2 : l.length % 16 ≤ l.length := Nat.mod_le _ _
  have := Nat.div_add_mod l.length 16
  refine ⟨l.length / 16 + 1, by omega⟩

theorem pad80_bounded {l : List Nat} (hb : ∀ b ∈ l, b < 256) :
    ∀ b ∈ pad80 l 16, b < 256 := by
  intro b hbm
  rcases List.mem_append.mp hbm with h | h
  · exact hb b h
  · rcases List.mem_cons.mp h with h | h
    · subst h; decide
    · rw [List.eq_of_mem_replicate h]; decide

/-! ## Claim C8 (logical-channel CLA round trip) -/

/-- C8: the claim fails on the code for channels 16-19.  `logCh` computes
`(4 + CLA) & 0x0F` (Python precedence), so the CLA bytes that `SCP03.CLA`
builds for logical channel 16 decode back to 0, not 16, with or without
the secure bit.  The code contradicts its own supported channel range
(`initUpdate` accepts channels up to 19), so this is a code bug. -/
theorem logCh_claByte_channel16 :
    SCP03.CLAf { scpT with logCh := some 16 } false 0x80 = some (claByte 16 false 0x80) ∧
    logCh (claByte 16 false 0x80) = 0 ∧
    logCh (claByte 16 true 0x80) = 0 ∧
    (0 : Nat) ≠ 16 := by
  decide

/-! ## Claim C10 (extAuth validates before mutating) -/

/-- C10: if the requested security level is not among the six accepted
values, or requests R-MAC/R-ENC bits that the session's `i` parameter
does not support, `extAuth` fails.  In the source all these asserts
precede every assignment to `self` (lines 266-277), which the embedding
mirrors by failing without producing a state, so `SL`, `rmacSL`,
`cmdCount` and `MACchain` keep their previous values. -/
theorem extAuth_invalid_rejected (s : SCP03) (SL : Nat)
    (h : SL ∉ [0, 0x01, 0x03, 0x11, 0x13, 0x33] ∨
         (SL &&& 0x10 ≠ 0 ∧ s.i &&& 0x20 = 0) ∨
         (SL &&& 0x20 ≠ 0 ∧ s.i &&& 0x60 ≠ 0x60)) :
    SCP03.extAuth s SL = none := by
  unfold SCP03.extAuth
  split
  · rfl
  · split
    · rfl
    · split
      · rfl
      · rename_i h1 h2 h3
        rcases h with h | h | h
        · exact absurd (by simpa using h3) (by simpa using h)
        · exact absurd h h1
        · exact absurd h h2

/-- C10 witness: SL = 2 (C-ENC without C-MAC) is rejected on the test
session. -/
theorem extAuth_invalid_rejected_witness : SCP03.extAuth scpT 2 = none :=
  extAuth_invalid_rejected scpT 2 (Or.inl (by decide))

/-! ## Claim C9 (DEK.encrypt padding) -/

/-- C9 counterexample: encrypting 16 already-aligned bytes yields a
16-byte ciphertext, not a strictly longer one — `DEK.encrypt` does not
pad aligned data (its own docstring says so), contradicting the claim's
"always padded, strictly greater length". -/
theorem DEKencrypt_aligned_no_padding :
    (DEKencrypt keyDEKt (List.replicate 16 0x41)).length = (List.replicate 16 0x41).length := by
  decide

/-- C9 as amended: `DEK.encrypt` appends 0x80 and zeros only when the
data length is not a multiple of 16; the ciphertext length equals the
data length when aligned and the next multiple of 16 otherwise. -/
theorem DEKencrypt_padding (key data : List Nat) (hk : KeyOK key) :
    (16 ∣ data.length →
      DEKencrypt key data = cbcEnc key (List.replicate 16 0) data ∧
      (DEKencrypt key data).length = data.length) ∧
    (¬ 16 ∣ data.length →
      DEKencrypt key data =
        cbcEnc key (List.replicate 16 0) (data ++ 0x80 :: List.replicate (15 - data.length % 16) 0) ∧
      (DEKencrypt key data).length = 16 * (data.length / 16) + 16) := by
  constructor
  · intro hdvd
    have hl : data.length % 16 = 0 := Nat.eq_zero_of_dvd_of_lt hdvd |> fun _ => Nat.mod_eq_zero_of_dvd hdvd
    constructor
    · simp [DEKencrypt, hl]
    · rw [show DEKencrypt key data = cbcEnc key (List.replicate 16 0) data by simp [DEKencrypt, hl]]
      exact cbcEnc_length hk _ _ hdvd
  · intro hdvd
    have hl : 0 < data.length % 16 := by
      rcases Nat.eq_zero_or_pos (data.length % 16) with h | h
      · exact absurd (Nat.dvd_of_mod_eq_zero h) hdvd
      · exact h
    have heq : DEKencrypt key data =
        cbcEnc key (List.replicate 16 0) (data ++ 0x80 :: List.replicate (15 - data.length % 16) 0) := by
      simp [DEKencrypt, hl]
    refine ⟨heq, ?_⟩
    rw [heq, cbcEnc_length hk]
    · have h16 : data.length % 16 < 16 := Nat.mod_lt _ (by omega)
      have := Nat.div_add_mod data.length 16
      simp
      omega
    · have h16 : data.length % 16 < 16 := Nat.mod_lt _ (by omega)
      have := Nat.div_add_mod data.length 16
      refine ⟨data.length / 16 + 1, ?_⟩
      simp
      omega

/-- C9 witness: the test DEK key is a valid AES key, and a 5-byte input
under it is padded to exactly one block. -/
theorem DEKencrypt_padding_witness :
    KeyOK keyDEKt ∧
      DEKencrypt keyDEKt [1, 2, 3, 4, 5] =
        cbcEnc keyDEKt (List.replicate 16 0)
          ([1, 2, 3, 4, 5] ++ 0x80 :: List.replicate (15 - ([1, 2, 3, 4, 5] : List Nat).length % 16) 0) ∧
      (DEKencrypt keyDEKt [1, 2, 3, 4, 5]).length =
        16 * (([1, 2, 3, 4, 5] : List Nat).length / 16) + 16 :=
  ⟨⟨Or.inl (by decide), by decide⟩,
   (DEKencrypt_padding keyDEKt [1, 2, 3, 4, 5] ⟨Or.inl (by decide), by decide⟩).2 (by decide)⟩

/-! ## Concrete evaluations shared by several claims -/

theorem kdf_cc_eval : KDF keyENCt 2 0x40 (beBytes 3 42 ++ sdAIDt) = ccL := by decide

theorem kdf_senc_eval : KDF keyENCt 4 128 ctxT = sencL := by decide

theorem kdf_smac_eval : KDF keyMACt 6 128 ctxT = smacL := by decide

theorem kdf_srmac_eval : KDF keyMACt 7 128 ctxT = srmacL := by decide

theorem kdf_cardcr_eval : KDF smacL 0 0x40 ctxT = cardCrL := by decide

theorem kdf_hostcr_eval : KDF smacL 1 0x40 ctxT = hostCrL := by decide

theorem deriveKeys_test_eval (s : SCP03) (hi : s.i = 0x70) (he : s.keyENC = keyENCt)
    (hm : s.keyMAC = keyMACt) (ha : s.SD_AID = sdAIDt) (hq : s.seqCounter = 42)
    (hh : s.host_challenge = some hostCh) :
    SCP03.deriveKeys s none = some { s with
      card_challenge := some ccL, SENC := some sencL, SMAC := some smacL,
      SRMAC := some srmacL, card_cryptogram := some cardCrL,
      host_cryptogram := some hostCrL, MACchain := none } := by
  unfold SCP03.deriveKeys
  simp only [hh]
  rw [if_neg (show ¬ ((some hostCh : Option (List Nat)) = none) by simp)]
  simp only [hh, hi, he, hm, ha, hq]
  norm_num
  rw [kdf_cc_eval]
  have h16 : keyENCt.length = 16 := by decide
  have h16m : keyMACt.length = 16 := by decide
  rw [h16, h16m]
  rw [if_neg (show ¬ ((112 &&& 16 : Nat) = 0) by decide)]
  have hctx : hostCh ++ ccL = ctxT := rfl
  simp only [hctx]
  norm_num
  rw [kdf_senc_eval, kdf_smac_eval, kdf_srmac_eval, kdf_cardcr_eval, kdf_hostcr_eval]
  exact ⟨rfl, rfl, rfl, rfl, rfl⟩

theorem cmac_chain1_eval :
    CMACf smacL (List.replicate 16 0 ++ [0x84, 0x82, 1, 0, 0x10] ++ hostCrL) = chain1L := by
  decide

theorem extAuth1_eval :
    SCP03.extAuth sT0 1 = some (sAuth 1 chain1L, [0x84, 0x82, 1, 0, 0x10] ++ hostCrL ++ chain1L.take 8) := by
  unfold SCP03.extAuth
  norm_num
  rw [deriveKeys_test_eval _ rfl rfl rfl rfl rfl rfl]
  rfl

theorem cmac_chain0_eval :
    CMACf smacL (List.replicate 16 0 ++ [0x84, 0x82, 0, 0, 0x10] ++ hostCrL) = chain0L := by
  decide

theorem cmac_chain3_eval :
    CMACf smacL (List.replicate 16 0 ++ [0x84, 0x82, 3, 0, 0x10] ++ hostCrL) = chain3L := by
  decide

theorem extAuth0_eval :
    SCP03.extAuth sT0 0 = some (sAuth 0 chain0L, [0x84, 0x82, 0, 0, 0x10] ++ hostCrL ++ chain0L.take 8) := by
  unfold SCP03.extAuth
  norm_num
  rw [deriveKeys_test_eval _ rfl rfl rfl rfl rfl rfl]
  rfl

theorem extAuth3_eval :
    SCP03.extAuth sT0 3 = some (sAuth 3 chain3L, [0x84, 0x82, 3, 0, 0x10] ++ hostCrL ++ chain3L.take 8) := by
  unfold SCP03.extAuth
  norm_num
  rw [deriveKeys_test_eval _ rfl rfl rfl rfl rfl rfl]
  decide

/-- C6: key derivation on the section-8 shared parameters produces
exactly the S2 values: card_challenge A3F5F144D19BE66E, S_ENC
852D207B7CC8C880231EDFD5C644CFB1, S_MAC 7131B9369F3D19850E6919CD3321523E,
S_RMAC B570AA1FDE18F9179B5CBD42D8939D05, card_cryptogram 72BFCBDF4A14515F
and host_cryptogram AEB8DAD1865B85E2. -/
theorem deriveKeys_S2_values :
    SCP03.deriveKeys sT0 none = some { sT0 with
      card_challenge := some [0xA3, 0xF5, 0xF1, 0x44, 0xD1, 0x9B, 0xE6, 0x6E],
      SENC := some [0x85, 0x2D, 0x20, 0x7B, 0x7C, 0xC8, 0xC8, 0x80, 0x23, 0x1E, 0xDF, 0xD5, 0xC6, 0x44, 0xCF, 0xB1],
      SMAC := some [0x71, 0x31, 0xB9, 0x36, 0x9F, 0x3D, 0x19, 0x85, 0x0E, 0x69, 0x19, 0xCD, 0x33, 0x21, 0x52, 0x3E],
      SRMAC := some [0xB5, 0x70, 0xAA, 0x1F, 0xDE, 0x18, 0xF9, 0x17, 0x9B, 0x5C, 0xBD, 0x42, 0xD8, 0x93, 0x9D, 0x05],
      card_cryptogram := some [0x72, 0xBF, 0xCB, 0xDF, 0x4A, 0x14, 0x51, 0x5F],
      host_cryptogram := some [0xAE, 0xB8, 0xDA, 0xD1, 0x86, 0x5B, 0x85, 0xE2],
      MACchain := none } := by
  rw [deriveKeys_test_eval sT0 rfl rfl rfl rfl rfl rfl]
  rfl
/-- C5: after key derivation, a successful `extAuth(SL)` sets `MACchain`
to `CMAC(S_MAC, 0x00^16 || 84 82 SL 00 10 || host_cryptogram)`, returns
the APDU `secure-CLA || 82 || SL || 00 || 10 || host_cryptogram ||
MACchain[0:8]`, and installs `SL` with `rmacSL = 0` and `cmdCount = 0`;
with the section-8 parameters and SL = 1 this yields exactly the S3 APDU
bytes and MAC chain. -/
theorem extAuth_contract :
    (∀ (s : SCP03) (SL : Nat) (s' : SCP03) (apdu hcv smac : List Nat) (ch : Nat),
      s.host_cryptogram = some hcv → s.SMAC = some smac → s.logCh = some ch →
      SCP03.extAuth s SL = some (s', apdu) →
      s'.MACchain = some (CMACf smac (List.replicate 16 0 ++ [0x84, 0x82, SL, 0, 0x10] ++ hcv)) ∧
      apdu = [claByte ch true 0x80, 0x82, SL, 0, 0x10] ++ hcv ++
        (CMACf smac (List.replicate 16 0 ++ [0x84, 0x82, SL, 0, 0x10] ++ hcv)).take 8 ∧
      s'.SL = some SL ∧ s'.rmacSL = some 0 ∧ s'.cmdCount = some 0) ∧
    SCP03.extAuth sT0 1 = some (sAuth 1 chain1L,
      [0x84, 0x82, 0x01, 0x00, 0x10, 0xAE, 0xB8, 0xDA, 0xD1, 0x86, 0x5B, 0x85, 0xE2,
       0x49, 0xFC, 0x4C, 0xF1, 0x84, 0xE6, 0x1D, 0xCD]) ∧
    (sAuth 1 chain1L).MACchain = some
      [0x49, 0xFC, 0x4C, 0xF1, 0x84, 0xE6, 0x1D, 0xCD, 0x4C, 0x39, 0x28, 0xE4, 0xC6, 0x17, 0xFB, 0xA3] := by
  refine ⟨?_, by rw [extAuth1_eval]; rfl, by rfl⟩
  intro s SL s' apdu hcv smac ch hhc hsmac hch hEq
  unfold SCP03.extAuth at hEq
  split at hEq
  · exact absurd hEq (by simp)
  split at hEq
  · exact absurd hEq (by simp)
  split at hEq
  · exact absurd hEq (by simp)
  simp only [hhc] at hEq
  rw [if_neg (by simp)] at hEq
  simp only [hhc, hsmac, hch, SCP03.CLAf] at hEq
  rcases hEq with ⟨rfl, rfl⟩
  refine ⟨by simp [hhc], rfl, rfl, rfl, rfl⟩

/-- C5 witness: the general contract applied to the authenticated test
session re-running EXTERNAL AUTHENTICATE at SL = 1. -/
theorem extAuth_contract_witness :
    (sAuth 1 chain1L).MACchain =
      some (CMACf smacL (List.replicate 16 0 ++ [0x84, 0x82, 1, 0, 0x10] ++ hostCrL)) ∧
    [0x84, 0x82, 1, 0, 0x10] ++ hostCrL ++ chain1L.take 8 =
      [claByte 0 true 0x80, 0x82, 1, 0, 0x10] ++ hostCrL ++
        (CMACf smacL (List.replicate 16 0 ++ [0x84, 0x82, 1, 0, 0x10] ++ hostCrL)).take 8 ∧
    (sAuth 1 chain1L).SL = some 1 ∧ (sAuth 1 chain1L).rmacSL = some 0 ∧
    (sAuth 1 chain1L).cmdCount = some 0 :=
  extAuth_contract.1 (sAuth 1 chain1L) 1 (sAuth 1 chain1L)
    ([0x84, 0x82, 1, 0, 0x10] ++ hostCrL ++ chain1L.take 8) hostCrL smacL 0 rfl rfl rfl
    (by decide)

theorem wrap_br_eval :
    SCP03.wrapAPDU (sAuth 1 chain1L) [0x80, 0x7A, 0x10, 1, 0] =
      some ({ sAuth 1 chain1L with
                MACchain := some chainBRL, cmdCount := some 1 },
            [0x84, 0x7A, 0x10, 1, 8] ++ chainBRL.take 8) := by
  decide

theorem beginRMAC_eval :
    SCP03.beginRMAC (sAuth 1 chain1L) 0x10 none =
      some (sBR1, [0x84, 0x7A, 0x10, 1, 8] ++ chainBRL.take 8) := by
  decide

theorem wrap_after_beginRMAC_eval :
    SCP03.wrapAPDU sBR1 [0x80, 0x10, 0, 0, 0] =
      some (sC1, [0x84, 0x10, 0, 0, 8] ++ chainC1L.take 8) := by
  decide

/-- C1: the claim is right and the code is wrong.  `beginRMAC(0x10)` on a
C-MAC session stores the elevated level in `beginRmacSL`, but the next
`wrapAPDU` tests the misspelled attribute name `beginRmaSL` (source line
397), which nothing ever assigns, so `rmacSL` stays 0 instead of becoming
P1 = 0x10, and `(SL | rmac_SL) & 0x10` stays 0 for SL = 1 — subsequent
`unwrapResp` calls skip R-MAC verification. -/
theorem beginRMAC_elevation_dead :
    ((SCP03.beginRMAC (sAuth 1 chain1L) 0x10 none).bind fun p =>
      (SCP03.wrapAPDU p.1 [0x80, 0x10, 0, 0, 0]).map fun q => (q.1.SL, q.1.rmacSL)) =
      some (some 1, some 0) ∧
    some (some (0 : Nat)) ≠ some (some (0x10 : Nat)) ∧
    ((1 : Nat) ||| 0) &&& 0x10 = 0 := by
  refine ⟨?_, by decide, by decide⟩
  rw [beginRMAC_eval]
  show (SCP03.wrapAPDU sBR1 [0x80, 0x10, 0, 0, 0]).map (fun q => (q.1.SL, q.1.rmacSL)) =
    some (some 1, some 0)
  rw [wrap_after_beginRMAC_eval]
  rfl

theorem rmaTransfer_frame (s t : SCP03) (h : SCP03.rmaTransfer s = some t) :
    t.cmdCount = s.cmdCount ∧ t.SL = s.SL ∧ t.MACchain = s.MACchain := by
  unfold SCP03.rmaTransfer at h
  split at h
  · injection h with h
    subst h
    exact ⟨rfl, rfl, rfl⟩
  · split at h
    · exact Option.noConfusion h
    · injection h with h
      subst h
      exact ⟨rfl, rfl, rfl⟩

theorem wrapMac_cmdCount (s : SCP03) (sl scla : Nat) (hdr : List Nat) (lc : Nat)
    (cdata : List Nat) (s' : SCP03) (d : List Nat) (lc' : Nat)
    (h : SCP03.wrapMac s sl scla hdr lc cdata = some (s', d, lc')) : s'.cmdCount = s.cmdCount := by
  unfold SCP03.wrapMac at h
  split at h
  · split at h
    · exact Option.noConfusion h
    · split at h
      · rcases h with ⟨rfl, rfl, rfl⟩
        rfl
      · exact Option.noConfusion h
  · rcases h with ⟨rfl, rfl, rfl⟩
    rfl

theorem wrapAPDU_getResponse (s : SCP03) (apdu : List Nat) (out : SCP03 × List Nat)
    (hins : apdu.getD 1 0 = 0xC0) (hw : SCP03.wrapAPDU s apdu = some out) : out = (s, apdu) := by
  unfold SCP03.wrapAPDU at hw
  split at hw
  · exact Option.noConfusion hw
  · rw [if_pos hins] at hw
    injection hw with hw
    exact hw.symm

theorem wrapAPDU_cmdCount (s : SCP03) (apdu : List Nat) (s' : SCP03) (w : List Nat) (n : Nat)
    (hins : apdu.getD 1 0 ≠ 0xC0) (hc : s.cmdCount = some n)
    (hw : SCP03.wrapAPDU s apdu = some (s', w)) : s'.cmdCount = some (n + 1) := by
  unfold SCP03.wrapAPDU at hw
  split at hw
  · exact Option.noConfusion hw
  rw [if_neg hins] at hw
  split at hw
  · exact Option.noConfusion hw
  rename_i s2 htr
  have hframe := rmaTransfer_frame s s2 htr
  split at hw
  · exact Option.noConfusion hw
  rename_i n0 hn0
  have hn : n0 = n := by
    rw [hframe.1, hc] at hn0
    injection hn0 with h
    exact h.symm
  subst hn
  dsimp only at hw
  split at hw
  · exact Option.noConfusion hw
  split at hw
  · exact Option.noConfusion hw
  split at hw
  · exact Option.noConfusion hw
  rename_i cdata lc hp
  split at hw
  · exact Option.noConfusion hw
  rename_i s3 cdata2 lc2 hq
  split at hw
  · exact Option.noConfusion hw
  rcases hw with ⟨rfl, rfl⟩
  rw [wrapMac_cmdCount _ _ _ _ _ _ _ _ _ hq]

theorem deriveKeys_frame (s : SCP03) (c : Option (List Nat)) (t : SCP03)
    (h : SCP03.deriveKeys s c = some t) :
    t.cmdCount = s.cmdCount ∧ t.SL = s.SL ∧ t.rmacSL = s.rmacSL := by
  unfold SCP03.deriveKeys at h
  by_cases hh : s.host_challenge = none
  · simp only [hh, if_true] at h
    repeat' (split at h <;> try exact Option.noConfusion h)
    all_goals (injection h with h; subst h; exact ⟨rfl, rfl, rfl⟩)
  · simp only [hh, if_false] at h
    repeat' (split at h <;> try exact Option.noConfusion h)
    all_goals (injection h with h; subst h; exact ⟨rfl, rfl, rfl⟩)

theorem extAuth_installs (s0 : SCP03) (SL : Nat) (s1 : SCP03) (a : List Nat)
    (h : SCP03.extAuth s0 SL = some (s1, a)) :
    s1.cmdCount = some 0 ∧ s1.SL = some SL ∧ s1.rmacSL = some 0 := by
  unfold SCP03.extAuth at h
  split at h
  · exact Option.noConfusion h
  split at h
  · exact Option.noConfusion h
  split at h
  · exact Option.noConfusion h
  dsimp only at h
  split at h
  · exact Option.noConfusion h
  rename_i s2 hder
  split at h <;> try exact Option.noConfusion h
  rename_i hcv smacv hhc hsmac
  split at h
  · exact Option.noConfusion h
  rcases h with ⟨rfl, rfl⟩
  have h2 : s2.cmdCount = some 0 ∧ s2.SL = some SL ∧ s2.rmacSL = some 0 := by
    split at hder
    · have := deriveKeys_frame _ _ _ hder
      rw [this.1, this.2.1, this.2.2]
      exact ⟨rfl, rfl, rfl⟩
    · injection hder with hder
      subst hder
      exact ⟨rfl, rfl, rfl⟩
  exact h2

theorem runEvs_cmdCount : ∀ (evs : List ScpEv) (s : SCP03) (k : Nat) (s' : SCP03),
    s.cmdCount = some k → runEvs s evs = some s' →
    s'.cmdCount = some (k + countWraps evs) := by
  intro evs
  induction evs with
  | nil =>
    intro s k s' hc hr
    injection hr with hr
    subst hr
    simpa [countWraps] using hc
  | cons e t ih =>
    intro s k s' hc hr
    cases e with
    | wrap a =>
      rw [runEvs] at hr
      split at hr
      · exact Option.noConfusion hr
      rename_i s2 w hw
      have hcw : countWraps (ScpEv.wrap a :: t) =
          (if a.getD 1 0 = 0xC0 then 0 else 1) + countWraps t := rfl
      by_cases hins : a.getD 1 0 = 0xC0
      · have hout := wrapAPDU_getResponse s a (s2, w) hins hw
        injection hout with h1 h2
        subst h1
        rw [hcw, if_pos hins, Nat.zero_add]
        exact ih _ k s' hc hr
      · have hcnt := wrapAPDU_cmdCount s a s2 w k hins hc hw
        rw [hcw, if_neg hins, ih s2 (k + 1) s' hcnt hr]
        congr 1
        omega
    | uresp r a b =>
      rw [runEvs] at hr
      split at hr
      · exact Option.noConfusion hr
      have hcw : countWraps (ScpEv.uresp r a b :: t) = countWraps t := rfl
      rw [hcw]
      exact ih s k s' hc hr

/-- C3: `wrapAPDU` adds exactly one to `cmdCount` for every
non-GET-RESPONSE APDU and passes a GET RESPONSE through unchanged;
`unwrapResp` assigns nothing; hence after EXTERNAL AUTHENTICATE (which
zeroes the counter) any successful run of wraps and response unwraps
leaves `cmdCount` equal to the number of non-GET-RESPONSE wraps. -/
theorem cmdCount_counts_wraps (s0 : SCP03) (SL : Nat) (s1 : SCP03) (a : List Nat)
    (evs : List ScpEv) (sf : SCP03)
    (hAuth : SCP03.extAuth s0 SL = some (s1, a))
    (hRun : runEvs s1 evs = some sf) :
    sf.cmdCount = some (countWraps evs) := by
  have h0 := (extAuth_installs s0 SL s1 a hAuth).1
  simpa using runEvs_cmdCount evs s1 0 sf h0 hRun

/-- C3 witness: one real wrap, one response unwrap and one GET RESPONSE
pass-through after EXTERNAL AUTHENTICATE leave `cmdCount` at 1. -/
theorem cmdCount_counts_wraps_witness : sC3.cmdCount = some (countWraps evsC3) :=
  cmdCount_counts_wraps sT0 1 (sAuth 1 chain1L)
    ([0x84, 0x82, 1, 0, 0x10] ++ hostCrL ++ chain1L.take 8) evsC3 sC3 extAuth1_eval (by decide)

/-- Characterisation of `deriveKeys` with a provided card challenge as a
single conditional. -/
theorem deriveKeys_some_eval (s : SCP03) (p : List Nat) :
    SCP03.deriveKeys s (some p) =
      if (if s.i &&& 0x10 ≠ 0 then p = KDF s.keyENC 2 0x40 (beBytes 3 s.seqCounter ++ s.SD_AID)
          else p.length = 8) then
        some { s with
               host_challenge := some (hchOf s),
               card_challenge := some (ccOf s p),
               SENC := some (KDF s.keyENC 4 (8 * s.keyENC.length) (ctxOf s p)),
               SMAC := some (KDF s.keyMAC 6 (8 * s.keyMAC.length) (ctxOf s p)),
               SRMAC := some (KDF s.keyMAC 7 (8 * s.keyMAC.length) (ctxOf s p)),
               card_cryptogram :=
                 some (KDF (KDF s.keyMAC 6 (8 * s.keyMAC.length) (ctxOf s p)) 0 0x40 (ctxOf s p)),
               host_cryptogram :=
                 some (KDF (KDF s.keyMAC 6 (8 * s.keyMAC.length) (ctxOf s p)) 1 0x40 (ctxOf s p)),
               MACchain := none }
      else none := by
  unfold SCP03.deriveKeys
  by_cases hh : s.host_challenge = none <;> by_cases hp : s.i &&& 0x10 ≠ 0
  · rw [if_pos hh]
    dsimp only
    simp only [hchOf, ccOf, ctxOf, hh, if_pos hp]
    by_cases hc : p = KDF s.keyENC 2 0x40 (beBytes 3 s.seqCounter ++ s.SD_AID)
    · rw [if_pos hc, if_neg (by simpa using hc)]
      rfl
    · rw [if_neg hc, if_pos (by simpa using hc)]
  · rw [if_pos hh]
    dsimp only
    simp only [hchOf, ccOf, ctxOf, hh, if_neg hp]
    by_cases hc : p.length = 8
    · rw [if_pos hc, if_neg (by simpa using hc)]
      rfl
    · rw [if_neg hc, if_pos (by simpa using hc)]
  · rw [if_neg hh]
    rcases Option.ne_none_iff_exists.mp hh with ⟨hchv, hhv⟩
    dsimp only
    simp only [hchOf, ccOf, ctxOf, ← hhv, if_pos hp]
    by_cases hc : p = KDF s.keyENC 2 0x40 (beBytes 3 s.seqCounter ++ s.SD_AID)
    · rw [if_pos hc, if_neg (by simpa using hc)]
      rfl
    · rw [if_neg hc, if_pos (by simpa using hc)]
  · rw [if_neg hh]
    rcases Option.ne_none_iff_exists.mp hh with ⟨hchv, hhv⟩
    dsimp only
    simp only [hchOf, ccOf, ctxOf, ← hhv, if_neg hp]
    by_cases hc : p.length = 8
    · rw [if_pos hc, if_neg (by simpa using hc)]
      rfl
    · rw [if_neg hc, if_pos (by simpa using hc)]

/-- Forward direction for C4: a successful parse implies the claimed
conditions and the extra challenge check. -/
theorem parse_forward (s : SCP03) (resp : List Nat) (t : SCP03)
    (ht : SCP03.parseInitUpdateResp s resp = some t) :
    c4RespOK s resp ∧ c4ChallengeOK s resp := by
  unfold SCP03.parseInitUpdateResp at ht
  split at ht
  · exact Option.noConfusion ht
  rename_i h1
  dsimp only at ht
  split at ht
  · exact Option.noConfusion ht
  rename_i h2
  split at ht
  · exact Option.noConfusion ht
  rename_i h3
  split at ht
  · exact Option.noConfusion ht
  rename_i s2 hs2
  split at ht
  · exact Option.noConfusion ht
  rename_i s3 hs3
  split at ht
  · exact Option.noConfusion ht
  rename_i ccv hccv
  split at ht
  · exact Option.noConfusion ht
  rename_i h6
  by_cases hp : (List.take 3 (List.drop 10 resp)).getD 2 0 &&& 0x10 ≠ 0
  · rw [if_pos hp] at hs2
    split at hs2
    · exact Option.noConfusion hs2
    rename_i h4
    injection hs2 with hs2
    subst hs2
    rw [deriveKeys_some_eval] at hs3
    simp only [if_pos hp] at hs3
    split at hs3
    swap
    · exact Option.noConfusion hs3
    rename_i hcond
    injection hs3 with hs3
    subst hs3
    dsimp only at hccv
    injection hccv with hccv
    have h4' : resp.length - 29 = 3 := by simpa using h4
    refine ⟨⟨Or.inr (by omega), of_not_not h2, of_not_not h3,
      ⟨fun _ => hp, fun _ => by omega⟩, ?_⟩, fun _ => hcond⟩
    rw [of_not_not h6, ← hccv]
    simp only [c4DerivedCryptogram, ctxOf, ccOf, hchOf]
  · rw [if_neg hp] at hs2
    split at hs2
    · exact Option.noConfusion hs2
    rename_i h4
    injection hs2 with hs2
    subst hs2
    rw [deriveKeys_some_eval] at hs3
    simp only [if_neg hp] at hs3
    split at hs3
    swap
    · exact Option.noConfusion hs3
    rename_i hcond
    injection hs3 with hs3
    subst hs3
    dsimp only at hccv
    injection hccv with hccv
    have h4' : resp.length - 29 = 0 := by simpa using h4
    have h29 : resp.length = 29 := by
      rcases Decidable.not_and_iff_or_not_not.mp h1 with h | h
      · exact of_not_not h
      · have := of_not_not h
        omega
    refine ⟨⟨Or.inl h29, of_not_not h2, of_not_not h3,
      ⟨fun h32 => absurd h32 (by omega), fun hps => absurd hps hp⟩, ?_⟩,
      fun hps => absurd hps hp⟩
    rw [of_not_not h6, ← hccv]
    simp only [c4DerivedCryptogram, ctxOf, ccOf, hchOf]
    simp only [if_neg hp]

/-- Backward direction for C4: the claimed conditions plus the challenge
check make the parse succeed. -/
theorem parse_backward (s : SCP03) (resp : List Nat)
    (hOK : c4RespOK s resp) (hch : c4ChallengeOK s resp) :
    ∃ t, SCP03.parseInitUpdateResp s resp = some t := by
  obtain ⟨hlen, hscp, hleg, hseq, hcc⟩ := hOK
  unfold SCP03.parseInitUpdateResp
  rw [if_neg (show ¬(resp.length ≠ 29 ∧ resp.length ≠ 32) by
        rcases hlen with h | h <;> simp [h])]
  dsimp only
  rw [if_neg (not_ne_iff.mpr hscp), if_neg (not_not_intro hleg)]
  simp only [c4DerivedCryptogram] at hcc
  by_cases hp : (List.take 3 (List.drop 10 resp)).getD 2 0 &&& 0x10 ≠ 0
  · have h32 := hseq.mpr hp
    rw [if_pos hp, if_neg (show ¬(List.drop 29 resp).length ≠ 3 by simp [h32])]
    dsimp only
    rw [deriveKeys_some_eval]
    simp only [if_pos hp]
    rw [if_pos (hch hp)]
    simp only [ctxOf, ccOf, hchOf]
    simp only [if_pos hp] at hcc ⊢
    rw [if_neg (not_ne_iff.mpr hcc)]
    exact ⟨_, rfl⟩
  · have h29 : resp.length = 29 := by
      rcases hlen with h | h
      · exact h
      · exact absurd (hseq.mp h) hp
    rw [if_neg hp, if_neg (show ¬(List.drop 29 resp).length ≠ 0 by simp [h29])]
    dsimp only
    rw [deriveKeys_some_eval]
    simp only [if_neg hp]
    rw [if_pos (show (List.take 8 (List.drop 13 resp)).length = 8 by
          simp [List.length_take, List.length_drop, h29])]
    simp only [ctxOf, ccOf, hchOf]
    simp only [if_neg hp] at hcc ⊢
    rw [if_neg (not_ne_iff.mpr hcc)]
    exact ⟨_, rfl⟩

/-- C4 (amended): `parseInitUpdateResp` succeeds if and only if the claimed
conditions hold (length 29 or 32, SCP byte 0x03, legal `i` flags, sequence
counter present exactly under `i & 0x10`, received cryptogram equal to the
recomputed one) AND, under a pseudo-random `i`, the received card challenge
equals the host-recomputed pseudo-random challenge; the claim omits the
latter check, which is not implied by the others. -/
theorem parseInitUpdateResp_iff (s : SCP03) (resp : List Nat) :
    (∃ t, SCP03.parseInitUpdateResp s resp = some t) ↔
      c4RespOK s resp ∧ c4ChallengeOK s resp := by
  constructor
  · rintro ⟨t, ht⟩
    exact parse_forward s resp t ht
  · rintro ⟨h1, h2⟩
    exact parse_backward s resp h1 h2

/-- Counterexample to C4 as stated: a response with a tampered card
challenge but correct cryptogram meets every condition the claim lists,
yet `parseInitUpdateResp` rejects it. -/
theorem parse_pseudo_tamper :
    c4RespOK sT0 tamperedResp ∧ SCP03.parseInitUpdateResp sT0 tamperedResp = none :=
  ⟨by simp only [c4RespOK, c4DerivedCryptogram]; decide, by decide⟩

/-- The foldl form of the big-endian value: running from accumulator `a`. -/
theorem beNat_aux (l : List Nat) (a : Nat) :
    l.foldl (fun a b => a * 256 + b) a =
      a * 256 ^ l.length + l.foldl (fun a b => a * 256 + b) 0 := by
  induction l generalizing a with
  | nil => simp
  | cons x t ih =>
    simp only [List.foldl_cons, List.length_cons]
    rw [ih (a * 256 + x), ih (0 * 256 + x)]
    ring

/-- Big-endian value of a cons. -/
theorem beNat_cons (x : Nat) (t : List Nat) :
    beNat (x :: t) = x * 256 ^ t.length + beNat t := by
  unfold beNat
  simp only [List.foldl_cons]
  rw [beNat_aux]
  norm_num

/-- Big-endian value of an append. -/
theorem beNat_append (a b : List Nat) :
    beNat (a ++ b) = beNat a * 256 ^ b.length + beNat b := by
  unfold beNat
  rw [List.foldl_append, beNat_aux]

/-- A byte string of length `k` encodes a value below `256 ^ k`. -/
theorem beNat_lt (l : List Nat) (hb : ∀ b ∈ l, b < 256) : beNat l < 256 ^ l.length := by
  induction l with
  | nil => simp [beNat]
  | cons x t ih =>
    rw [beNat_cons]
    have h1 : beNat t < 256 ^ t.length := ih (fun b h => hb b (List.mem_cons_of_mem _ h))
    have h2 : x < 256 := hb x (List.mem_cons_self _ _)
    calc x * 256 ^ t.length + beNat t < x * 256 ^ t.length + 256 ^ t.length := by omega
    _ = (x + 1) * 256 ^ t.length := by ring
    _ ≤ 256 * 256 ^ t.length := Nat.mul_le_mul_right _ (by omega)
    _ = 256 ^ (x :: t).length := by rw [List.length_cons, pow_succ']

/-- An encoding `beBytes k v` always has `k` bytes. -/
theorem beBytes_length (k v : Nat) : (beBytes k v).length = k := by
  induction k generalizing v with
  | zero => rfl
  | succ k ih => simp [beBytes, ih]

/-- Every element of `beBytes k v` is a genuine byte. -/
theorem beBytes_bounded (k v : Nat) : ∀ b ∈ beBytes k v, b < 256 := by
  induction k generalizing v with
  | zero => simp [beBytes]
  | succ k ih =>
    intro b hb
    rcases List.mem_append.mp hb with h | h
    · exact ih _ b h
    · simp only [List.mem_singleton] at h
      subst h
      exact Nat.mod_lt _ (by omega)

/-- Splitting a big-endian encoding into high and low parts. -/
theorem beBytes_split (a b v : Nat) :
    beBytes (a + b) v = beBytes a (v / 256 ^ b) ++ beBytes b (v % 256 ^ b) := by
  induction b generalizing v with
  | zero => simp [beBytes]
  | succ b ih =>
    show beBytes (a + b + 1) v = _
    rw [beBytes, ih]
    conv_rhs => rw [beBytes]
    rw [show v % 256 ^ (b + 1) / 256 = v / 256 % 256 ^ b from by
          rw [pow_succ']; exact Nat.mod_mul_right_div_self v 256 (256 ^ b),
        show v % 256 ^ (b + 1) % 256 = v % 256 from
          Nat.mod_mod_of_dvd v ⟨256 ^ b, by rw [pow_succ']⟩,
        show v / 256 ^ (b + 1) = v / 256 / 256 ^ b from by
          rw [Nat.div_div_eq_div_mul, pow_succ'],
        List.append_assoc]

/-- Decoding an encoding gives the value modulo `256 ^ k`. -/
theorem beNat_beBytes (k v : Nat) : beNat (beBytes k v) = v % 256 ^ k := by
  induction k generalizing v with
  | zero => simp [beBytes, beNat, Nat.mod_one]
  | succ k ih =>
    rw [beBytes, beNat_append, ih]
    have h1 : beNat [v % 256] = v % 256 := by simp [beNat]
    have h2 : ([v % 256] : List Nat).length = 1 := rfl
    rw [h1, h2, pow_one]
    conv_rhs => rw [pow_succ', Nat.mod_mul]
    ring

/-- XOR commutes with dividing by a power of two. -/
theorem xor_div_two_pow (a b n : Nat) : (a ^^^ b) / 2 ^ n = a / 2 ^ n ^^^ b / 2 ^ n := by
  apply Nat.eq_of_testBit_eq
  intro i
  simp [← Nat.shiftRight_eq_div_pow, Nat.testBit_shiftRight, Nat.testBit_xor]

/-- XOR commutes with reducing modulo a power of two. -/
theorem xor_mod_two_pow (a b n : Nat) : (a ^^^ b) % 2 ^ n = a % 2 ^ n ^^^ b % 2 ^ n := by
  apply Nat.eq_of_testBit_eq
  intro i
  simp [Nat.testBit_mod_two_pow, Nat.testBit_xor]
  by_cases h : i < n <;> simp [h]

/-- The bridge for C7: the source `polyMulX`, despite its detour through
two signed 64-bit halves, computes exactly the spec mulX on the
big-endian 128-bit value, for any 16 genuine bytes. -/
theorem polyMulX_spec (l : List Nat) (hl : l.length = 16) (hb : ∀ b ∈ l, b < 256) :
    polyMulX l = beBytes 16 (specMulX (beNat l)) := by
  have hlt : (l.take 8).length = 8 := by rw [List.length_take]; omega
  have hld : (l.drop 8).length = 8 := by rw [List.length_drop]; omega
  have hhb : beNat (l.take 8) < 2 ^ 64 := by
    have h1 := beNat_lt (l.take 8) (fun b h => hb b (List.mem_of_mem_take h))
    rw [hlt] at h1
    calc beNat (l.take 8) < 256 ^ 8 := h1
    _ = 2 ^ 64 := by norm_num
  have hlob : beNat (l.drop 8) < 2 ^ 64 := by
    have h1 := beNat_lt (l.drop 8) (fun b h => hb b (List.mem_of_mem_drop h))
    rw [hld] at h1
    calc beNat (l.drop 8) < 256 ^ 8 := h1
    _ = 2 ^ 64 := by norm_num
  have hsplit : beNat l = beNat (l.take 8) * 2 ^ 64 + beNat (l.drop 8) := by
    conv_lhs => rw [← List.take_append_drop 8 l]
    rw [beNat_append, hld]
    norm_num
  simp only [polyMulX, specMulX, hsplit]
  set h := beNat (l.take 8) with hdefh
  set lo := beNat (l.drop 8) with hdeflo
  rw [show (16 : Nat) = 8 + 8 from rfl, beBytes_split,
      show (256 : Nat) ^ 8 = 2 ^ 64 from by norm_num]
  by_cases hm : h < 2 ^ 63 <;> by_cases hc : lo < 2 ^ 63
  · simp only [if_pos hm, if_pos hc,
      if_neg (show ¬((lo : Int) < 0) from by omega),
      if_neg (show ¬((h : Int) < 0) from by omega),
      if_neg (show ¬(2 ^ 127 ≤ h * 2 ^ 64 + lo) from by omega), Nat.add_zero]
    have e0 : (((h : Int) * 2) % 2 ^ 64).toNat = 2 * (h * 2 ^ 64 + lo) % 2 ^ 128 / 2 ^ 64 := by
      omega
    have e1 : (((lo : Int) * 2) % 2 ^ 64).toNat = 2 * (h * 2 ^ 64 + lo) % 2 ^ 128 % 2 ^ 64 := by
      omega
    rw [e0, e1]
  · simp only [if_pos hm, if_neg hc,
      if_pos (show ((lo : Int) - 2 ^ 64 < 0) from by omega),
      if_neg (show ¬((h : Int) < 0) from by omega),
      if_neg (show ¬(2 ^ 127 ≤ h * 2 ^ 64 + lo) from by omega)]
    have e0 : ((((h : Int)) * 2) % 2 ^ 64).toNat + 1 =
        2 * (h * 2 ^ 64 + lo) % 2 ^ 128 / 2 ^ 64 := by omega
    have e1 : ((((lo : Int) - 2 ^ 64) * 2) % 2 ^ 64).toNat =
        2 * (h * 2 ^ 64 + lo) % 2 ^ 128 % 2 ^ 64 := by omega
    rw [e0, e1]
  · simp only [if_neg hm, if_pos hc,
      if_neg (show ¬((lo : Int) < 0) from by omega),
      if_pos (show ((h : Int) - 2 ^ 64 < 0) from by omega),
      if_pos (show (2 ^ 127 ≤ h * 2 ^ 64 + lo) from by omega), Nat.add_zero]
    rw [xor_div_two_pow, xor_mod_two_pow,
        show (135 : Nat) / 2 ^ 64 = 0 from by norm_num,
        show (135 : Nat) % 2 ^ 64 = 135 from by norm_num, Nat.xor_zero]
    have e0 : ((((h : Int) - 2 ^ 64) * 2) % 2 ^ 64).toNat =
        2 * (h * 2 ^ 64 + lo) % 2 ^ 128 / 2 ^ 64 := by omega
    have e1 : (((lo : Int)) * 2 % 2 ^ 64).toNat = 2 * (h * 2 ^ 64 + lo) % 2 ^ 128 % 2 ^ 64 := by
      omega
    rw [e0, e1]
  · simp only [if_neg hm, if_neg hc,
      if_pos (show ((lo : Int) - 2 ^ 64 < 0) from by omega),
      if_pos (show ((h : Int) - 2 ^ 64 < 0) from by omega),
      if_pos (show (2 ^ 127 ≤ h * 2 ^ 64 + lo) from by omega)]
    rw [xor_div_two_pow, xor_mod_two_pow,
        show (135 : Nat) / 2 ^ 64 = 0 from by norm_num,
        show (135 : Nat) % 2 ^ 64 = 135 from by norm_num, Nat.xor_zero]
    have e0 : ((((h : Int) - 2 ^ 64) * 2) % 2 ^ 64).toNat + 1 =
        2 * (h * 2 ^ 64 + lo) % 2 ^ 128 / 2 ^ 64 := by omega
    have e1 : ((((lo : Int) - 2 ^ 64) * 2) % 2 ^ 64).toNat =
        2 * (h * 2 ^ 64 + lo) % 2 ^ 128 % 2 ^ 64 := by omega
    rw [e0, e1]

/-- The source `CMAC` coincides with the NIST SP 800-38B construction as
worded by the spec, for every valid AES key and every byte string. -/
theorem CMACf_eq_cmacSpec (key data : List Nat) (hk : KeyOK key) :
    CMACf key data = cmacSpec key data := by
  simp only [CMACf, cmacSpec]
  rw [polyMulX_spec _ (aesEncBlock_length hk _) (aesEncBlock_bounded hk _ (by simp)),
      polyMulX_spec _ (beBytes_length _ _) (beBytes_bounded _ _)]
  by_cases ha : data.length % 16 = 0 ∧ data ≠ []
  · have ha' : data.length % 16 = 0 ∧ data.length ≠ 0 := by
      refine ⟨ha.1, fun hl => ha.2 (List.length_eq_zero.mp hl)⟩
    have hn : ¬(0 < data.length % 16 ∨ data.length = 0) := by omega
    rw [if_neg hn, if_neg hn, if_pos ha, if_pos ha]
  · have ha' : ¬(data.length % 16 = 0 ∧ data.length ≠ 0) := by
      intro hcon
      exact ha ⟨hcon.1, fun he => hcon.2 (by rw [he]; rfl)⟩
    have hn : 0 < data.length % 16 ∨ data.length = 0 := by omega
    rw [if_pos hn, if_pos hn, if_neg ha, if_neg ha,
        show 16 - data.length % 16 - 1 = 15 - data.length % 16 from by omega]

/-- Taking `lastN n` of a list of length at least `n` gives length `n`. -/
theorem lastN_length (n : Nat) (l : List Nat) (h : n ≤ l.length) : (lastN n l).length = n := by
  simp [lastN]
  omega

/-- XORing the last 16 bytes preserves the length. -/
theorem xorLast16_length (l xk : List Nat) (hx : xk.length = 16) (hl : 16 ≤ l.length) :
    (xorLast16 l xk).length = l.length := by
  simp [xorLast16, lastN, hx]
  omega

/-- The result of `polyMulX` always has 16 bytes. -/
theorem polyMulX_length (p : List Nat) : (polyMulX p).length = 16 := by
  simp [polyMulX, beBytes_length]

/-- The CMAC tag always has 16 bytes. -/
theorem CMACf_length (key data : List Nat) (hk : KeyOK key) : (CMACf key data).length = 16 := by
  simp only [CMACf]
  by_cases hp : 0 < data.length % 16 ∨ data.length = 0
  · rw [if_pos hp, if_pos hp]
    have hmod : data.length % 16 < 16 := Nat.mod_lt _ (by omega)
    have hplen : (data ++ 0x80 :: List.replicate (16 - data.length % 16 - 1) 0).length =
        data.length + (16 - data.length % 16) := by
      simp
      omega
    have hdvd : 16 ∣ (data ++ 0x80 :: List.replicate (16 - data.length % 16 - 1) 0).length := by
      rw [hplen]
      have := Nat.div_add_mod data.length 16
      exact ⟨data.length / 16 + 1, by omega⟩
    have hge : 16 ≤ (data ++ 0x80 :: List.replicate (16 - data.length % 16 - 1) 0).length := by
      rw [hplen]
      omega
    rw [lastN_length]
    rw [cbcEnc_length hk, xorLast16_length _ _ (polyMulX_length _) hge]
    · exact hge
    · rw [xorLast16_length _ _ (polyMulX_length _) hge]
      exact hdvd
  · rw [if_neg hp, if_neg hp]
    have h0 : data.length % 16 = 0 := by omega
    have hne : data.length ≠ 0 := by omega
    have hge : 16 ≤ data.length := by omega
    rw [lastN_length]
    rw [cbcEnc_length hk, xorLast16_length _ _ (polyMulX_length _) hge]
    · exact hge
    · rw [xorLast16_length _ _ (polyMulX_length _) hge]
      exact ⟨data.length / 16, by omega⟩

/-- NIST SP 800-38B appendix D.1, empty message: concrete evaluation. -/
theorem nist_empty_eval : CMACf nistKey [] = nistTagEmpty := by decide

/-- C7: `CMAC` is total on valid AES keys (16, 24 or 32 bytes) and
arbitrary byte strings, always returns a 16-byte tag, coincides with the
NIST SP 800-38B construction exactly as the spec words it (K1/K2 from
mulX of the encrypted zero block, alignment-dependent padding and
subkey, final CBC block as tag), and reproduces the NIST empty-message
test vector. -/
theorem CMAC_nist_spec (key data : List Nat) (hk : KeyOK key) :
    (CMACf key data).length = 16 ∧ CMACf key data = cmacSpec key data ∧
      CMACf nistKey [] = nistTagEmpty :=
  ⟨CMACf_length key data hk, CMACf_eq_cmacSpec key data hk, nist_empty_eval⟩

/-- C7 witness: the NIST AES-128 key is a valid key, and the theorem
applies to it on a concrete 3-byte message. -/
theorem CMAC_nist_spec_witness :
    KeyOK nistKey ∧ ((CMACf nistKey [1, 2, 3]).length = 16 ∧
      CMACf nistKey [1, 2, 3] = cmacSpec nistKey [1, 2, 3] ∧
      CMACf nistKey [] = nistTagEmpty) :=
  ⟨⟨Or.inl (by decide), by decide⟩,
   CMAC_nist_spec nistKey [1, 2, 3] ⟨Or.inl (by decide), by decide⟩⟩

/-- XORing twice with the same key list is the identity (right operand). -/
theorem zipWith_xor_cancel_right : ∀ (s k : List Nat), s.length = k.length →
    List.zipWith (fun x y => x ^^^ y) (List.zipWith (fun x y => x ^^^ y) s k) k = s := by
  intro s
  induction s with
  | nil => intro k _; simp
  | cons a t ih =>
    intro k hl
    cases k with
    | nil => simp at hl
    | cons b u =>
      simp only [List.zipWith_cons_cons, Nat.xor_cancel_right, List.cons.injEq, true_and]
      exact ih u (by simpa using hl)

/-- XORing twice with the same IV list is the identity (left operand). -/
theorem zipWith_xor_cancel_left : ∀ (iv x : List Nat), iv.length = x.length →
    List.zipWith (fun a b => a ^^^ b) iv (List.zipWith (fun a b => a ^^^ b) iv x) = x := by
  intro iv
  induction iv with
  | nil =>
    intro x hl
    have hx : x = [] := List.length_eq_zero.mp hl.symm
    simp [hx]
  | cons a t ih =>
    intro x hl
    cases x with
    | nil => simp at hl
    | cons b u =>
      simp only [List.zipWith_cons_cons, List.cons.injEq]
      refine ⟨by rw [← Nat.xor_assoc, Nat.xor_self, Nat.zero_xor], ih u (by simpa using hl)⟩

/-- A 16-byte list is the list of its 16 `getD` entries. -/
theorem eta16 (l : List Nat) (h : l.length = 16) :
    l = [l.getD 0 0, l.getD 1 0, l.getD 2 0, l.getD 3 0, l.getD 4 0, l.getD 5 0,
         l.getD 6 0, l.getD 7 0, l.getD 8 0, l.getD 9 0, l.getD 10 0, l.getD 11 0,
         l.getD 12 0, l.getD 13 0, l.getD 14 0, l.getD 15 0] := by
  apply List.ext_getElem
  · simp [h]
  intro i h1 h2
  have h16 : i < 16 := by omega
  interval_cases i <;> simp [List.getD_eq_getElem, List.getElem?_eq_getElem, h]

/-- The inverse S-box inverts the S-box on bytes. -/
theorem sbox_linv : ∀ b, b < 256 → invSbox (sbox b) = b := by decide

/-- InvSubBytes inverts SubBytes on byte states. -/
theorem invSubBytes_subBytes (l : List Nat) (hb : ∀ b ∈ l, b < 256) :
    invSubBytes (subBytes l) = l := by
  simp only [invSubBytes, subBytes, List.map_map]
  conv_rhs => rw [← List.map_id l]
  exact List.map_congr_left (fun b hbm => sbox_linv b (hb b hbm))

/-- InvShiftRows inverts ShiftRows on 16-byte states. -/
theorem invShiftRows_shiftRows (l : List Nat) (h : l.length = 16) :
    invShiftRows (shiftRows l) = l := by
  conv_rhs => rw [eta16 l h]
  rfl

/-- AddRoundKey is an involution. -/
theorem addRoundKey_cancel (k s : List Nat) (hl : s.length = k.length) :
    addRoundKey k (addRoundKey k s) = s := by
  simp only [addRoundKey]
  exact zipWith_xor_cancel_right s k hl

/-- Left shift distributes over XOR. -/
theorem shiftLeft_xor_distrib (a b n : Nat) : (a ^^^ b) <<< n = a <<< n ^^^ b <<< n := by
  apply Nat.eq_of_testBit_eq
  intro i
  simp [Nat.testBit_shiftLeft, Nat.testBit_xor]
  by_cases h : n ≤ i <;> simp [h]

/-- AND distributes over XOR (restatement). -/
theorem and_xor_distrib_right' (a b c : Nat) : (a ^^^ b) &&& c = (a &&& c) ^^^ (b &&& c) :=
  Nat.and_xor_distrib_right

/-- The masked high bit of a byte is 0 or 128. -/
theorem msb_cases (x : Nat) : x &&& 128 = 0 ∨ x &&& 128 = 128 := by
  have h : x &&& 128 = (x.testBit 7).toNat * 128 := by
    have := Nat.and_two_pow x 7
    norm_num at this ⊢
    omega
  cases ht : x.testBit 7 <;> simp [ht] at h <;> omega

/-- Left commutativity of XOR. -/
theorem nat_xor_left_comm (a b c : Nat) : a ^^^ (b ^^^ c) = b ^^^ (a ^^^ c) := by
  rw [← Nat.xor_assoc, Nat.xor_comm a b, Nat.xor_assoc]

/-- The 0x1B reduction constant cancels across a XOR. -/
theorem xor27_cancel (a b : Nat) : (a ^^^ 27) ^^^ (b ^^^ 27) = a ^^^ b := by
  simp [Nat.xor_assoc, Nat.xor_comm, nat_xor_left_comm]

/-- Associativity instance used for the xtime case split. -/
theorem xor27_assoc (a b : Nat) : (a ^^^ b) ^^^ 27 = a ^^^ (b ^^^ 27) := Nat.xor_assoc a b 27

/-- Multiplication by x in GF(2^8) is XOR-linear. -/
theorem xtime_linear (x y : Nat) : xtime (x ^^^ y) = xtime x ^^^ xtime y := by
  have hc : (x ^^^ y) &&& 128 = (x &&& 128) ^^^ (y &&& 128) := Nat.and_xor_distrib_right
  unfold xtime
  rcases msb_cases x with hx | hx <;> rcases msb_cases y with hy | hy <;>
    rw [hx, hy] at hc <;> simp only [Nat.zero_xor, Nat.xor_zero, Nat.xor_self] at hc
  · rw [if_pos hc, if_pos hx, if_pos hy, shiftLeft_xor_distrib, Nat.and_xor_distrib_right]
  · rw [if_neg (by omega : ¬((x ^^^ y) &&& 128 = 0)), if_pos hx,
        if_neg (by omega : ¬(y &&& 128 = 0)), shiftLeft_xor_distrib, xor27_assoc,
        Nat.and_xor_distrib_right]
  · rw [if_neg (by omega : ¬((x ^^^ y) &&& 128 = 0)), if_neg (by omega : ¬(x &&& 128 = 0)),
        if_pos hy, shiftLeft_xor_distrib]
    rw [show (x <<< 1 ^^^ y <<< 1) ^^^ 27 = (x <<< 1 ^^^ 27) ^^^ y <<< 1 from by
          simp [Nat.xor_assoc, Nat.xor_comm, nat_xor_left_comm],
        Nat.and_xor_distrib_right]
  · rw [if_pos hc, if_neg (by omega : ¬(x &&& 128 = 0)), if_neg (by omega : ¬(y &&& 128 = 0)),
        shiftLeft_xor_distrib, ← xor27_cancel (x <<< 1) (y <<< 1), Nat.and_xor_distrib_right]

/-- mul2 is XOR-linear. -/
theorem mul2_linear (x y : Nat) : mul2 (x ^^^ y) = mul2 x ^^^ mul2 y := xtime_linear x y

/-- mul3 is XOR-linear. -/
theorem mul3_linear (x y : Nat) : mul3 (x ^^^ y) = mul3 x ^^^ mul3 y := by
  simp [mul3, xtime_linear, Nat.xor_assoc, Nat.xor_comm, nat_xor_left_comm]

/-- mul9 is XOR-linear. -/
theorem mul9_linear (x y : Nat) : mul9 (x ^^^ y) = mul9 x ^^^ mul9 y := by
  simp [mul9, xtime_linear, Nat.xor_assoc, Nat.xor_comm, nat_xor_left_comm]

/-- mul11 is XOR-linear. -/
theorem mul11_linear (x y : Nat) : mul11 (x ^^^ y) = mul11 x ^^^ mul11 y := by
  simp [mul11, xtime_linear, Nat.xor_assoc, Nat.xor_comm, nat_xor_left_comm]

/-- mul13 is XOR-linear. -/
theorem mul13_linear (x y : Nat) : mul13 (x ^^^ y) = mul13 x ^^^ mul13 y := by
  simp [mul13, xtime_linear, Nat.xor_assoc, Nat.xor_comm, nat_xor_left_comm]

/-- mul14 is XOR-linear. -/
theorem mul14_linear (x y : Nat) : mul14 (x ^^^ y) = mul14 x ^^^ mul14 y := by
  simp [mul14, xtime_linear, Nat.xor_assoc, Nat.xor_comm, nat_xor_left_comm]

/-- The sixteen entries of the product of the InvMixColumns and MixColumns
matrices over GF(2^8), evaluated on every byte: diagonal entries are the
identity, off-diagonal entries vanish. -/
theorem mixIdent : ∀ x, x < 256 →
    (mul14 (mul2 x) ^^^ mul11 x ^^^ mul13 x ^^^ mul9 (mul3 x) = x ∧
     mul14 (mul3 x) ^^^ mul11 (mul2 x) ^^^ mul13 x ^^^ mul9 x = 0 ∧
     mul14 x ^^^ mul11 (mul3 x) ^^^ mul13 (mul2 x) ^^^ mul9 x = 0 ∧
     mul14 x ^^^ mul11 x ^^^ mul13 (mul3 x) ^^^ mul9 (mul2 x) = 0 ∧
     mul9 (mul2 x) ^^^ mul14 x ^^^ mul11 x ^^^ mul13 (mul3 x) = 0 ∧
     mul9 (mul3 x) ^^^ mul14 (mul2 x) ^^^ mul11 x ^^^ mul13 x = x ∧
     mul9 x ^^^ mul14 (mul3 x) ^^^ mul11 (mul2 x) ^^^ mul13 x = 0 ∧
     mul9 x ^^^ mul14 x ^^^ mul11 (mul3 x) ^^^ mul13 (mul2 x) = 0 ∧
     mul13 (mul2 x) ^^^ mul9 x ^^^ mul14 x ^^^ mul11 (mul3 x) = 0 ∧
     mul13 (mul3 x) ^^^ mul9 (mul2 x) ^^^ mul14 x ^^^ mul11 x = 0 ∧
     mul13 x ^^^ mul9 (mul3 x) ^^^ mul14 (mul2 x) ^^^ mul11 x = x ∧
     mul13 x ^^^ mul9 x ^^^ mul14 (mul3 x) ^^^ mul11 (mul2 x) = 0 ∧
     mul11 (mul2 x) ^^^ mul13 x ^^^ mul9 x ^^^ mul14 (mul3 x) = 0 ∧
     mul11 (mul3 x) ^^^ mul13 (mul2 x) ^^^ mul9 x ^^^ mul14 x = 0 ∧
     mul11 x ^^^ mul13 (mul3 x) ^^^ mul9 (mul2 x) ^^^ mul14 x = 0 ∧
     mul11 x ^^^ mul13 x ^^^ mul9 (mul3 x) ^^^ mul14 (mul2 x) = x) := by decide

/-- One column of InvMixColumns inverts one column of MixColumns. -/
theorem invMixCol_mixCol (a b c d : Nat) (ha : a < 256) (hb : b < 256) (hc : c < 256)
    (hd : d < 256) :
    invMixCol (mul2 a ^^^ mul3 b ^^^ c ^^^ d) (a ^^^ mul2 b ^^^ mul3 c ^^^ d)
      (a ^^^ b ^^^ mul2 c ^^^ mul3 d) (mul3 a ^^^ b ^^^ c ^^^ mul2 d) = [a, b, c, d] := by
  obtain ⟨e0a, -, -, -, e1a, -, -, -, e2a, -, -, -, e3a, -, -, -⟩ := mixIdent a ha
  obtain ⟨-, e0b, -, -, -, e1b, -, -, -, e2b, -, -, -, e3b, -, -⟩ := mixIdent b hb
  obtain ⟨-, -, e0c, -, -, -, e1c, -, -, -, e2c, -, -, -, e3c, -⟩ := mixIdent c hc
  obtain ⟨-, -, -, e0d, -, -, -, e1d, -, -, -, e2d, -, -, -, e3d⟩ := mixIdent d hd
  unfold invMixCol
  simp only [List.cons.injEq, and_true]
  refine ⟨?_, ?_, ?_, ?_⟩
  · calc mul14 (mul2 a ^^^ mul3 b ^^^ c ^^^ d) ^^^ mul11 (a ^^^ mul2 b ^^^ mul3 c ^^^ d) ^^^
        mul13 (a ^^^ b ^^^ mul2 c ^^^ mul3 d) ^^^ mul9 (mul3 a ^^^ b ^^^ c ^^^ mul2 d)
      = (mul14 (mul2 a) ^^^ mul11 a ^^^ mul13 a ^^^ mul9 (mul3 a)) ^^^
        ((mul14 (mul3 b) ^^^ mul11 (mul2 b) ^^^ mul13 b ^^^ mul9 b) ^^^
        ((mul14 c ^^^ mul11 (mul3 c) ^^^ mul13 (mul2 c) ^^^ mul9 c) ^^^
        (mul14 d ^^^ mul11 d ^^^ mul13 (mul3 d) ^^^ mul9 (mul2 d)))) := by
          simp only [mul2_linear, mul3_linear, mul9_linear, mul11_linear, mul13_linear,
            mul14_linear]
          ac_rfl
    _ = a := by rw [e0a, e0b, e0c, e0d]; simp
  · calc mul9 (mul2 a ^^^ mul3 b ^^^ c ^^^ d) ^^^ mul14 (a ^^^ mul2 b ^^^ mul3 c ^^^ d) ^^^
        mul11 (a ^^^ b ^^^ mul2 c ^^^ mul3 d) ^^^ mul13 (mul3 a ^^^ b ^^^ c ^^^ mul2 d)
      = (mul9 (mul2 a) ^^^ mul14 a ^^^ mul11 a ^^^ mul13 (mul3 a)) ^^^
        ((mul9 (mul3 b) ^^^ mul14 (mul2 b) ^^^ mul11 b ^^^ mul13 b) ^^^
        ((mul9 c ^^^ mul14 (mul3 c) ^^^ mul11 (mul2 c) ^^^ mul13 c) ^^^
        (mul9 d ^^^ mul14 d ^^^ mul11 (mul3 d) ^^^ mul13 (mul2 d)))) := by
          simp only [mul2_linear, mul3_linear, mul9_linear, mul11_linear, mul13_linear,
            mul14_linear]
          ac_rfl
    _ = b := by rw [e1a, e1b, e1c, e1d]; simp
  · calc mul13 (mul2 a ^^^ mul3 b ^^^ c ^^^ d) ^^^ mul9 (a ^^^ mul2 b ^^^ mul3 c ^^^ d) ^^^
        mul14 (a ^^^ b ^^^ mul2 c ^^^ mul3 d) ^^^ mul11 (mul3 a ^^^ b ^^^ c ^^^ mul2 d)
      = (mul13 (mul2 a) ^^^ mul9 a ^^^ mul14 a ^^^ mul11 (mul3 a)) ^^^
        ((mul13 (mul3 b) ^^^ mul9 (mul2 b) ^^^ mul14 b ^^^ mul11 b) ^^^
        ((mul13 c ^^^ mul9 (mul3 c) ^^^ mul14 (mul2 c) ^^^ mul11 c) ^^^
        (mul13 d ^^^ mul9 d ^^^ mul14 (mul3 d) ^^^ mul11 (mul2 d)))) := by
          simp only [mul2_linear, mul3_linear, mul9_linear, mul11_linear, mul13_linear,
            mul14_linear]
          ac_rfl
    _ = c := by rw [e2a, e2b, e2c, e2d]; simp
  · calc mul11 (mul2 a ^^^ mul3 b ^^^ c ^^^ d) ^^^ mul13 (a ^^^ mul2 b ^^^ mul3 c ^^^ d) ^^^
        mul9 (a ^^^ b ^^^ mul2 c ^^^ mul3 d) ^^^ mul14 (mul3 a ^^^ b ^^^ c ^^^ mul2 d)
      = (mul11 (mul2 a) ^^^ mul13 a ^^^ mul9 a ^^^ mul14 (mul3 a)) ^^^
        ((mul11 (mul3 b) ^^^ mul13 (mul2 b) ^^^ mul9 b ^^^ mul14 b) ^^^
        ((mul11 c ^^^ mul13 (mul3 c) ^^^ mul9 (mul2 c) ^^^ mul14 c) ^^^
        (mul11 d ^^^ mul13 d ^^^ mul9 (mul3 d) ^^^ mul14 (mul2 d)))) := by
          simp only [mul2_linear, mul3_linear, mul9_linear, mul11_linear, mul13_linear,
            mul14_linear]
          ac_rfl
    _ = d := by rw [e3a, e3b, e3c, e3d]; simp

/-- InvMixColumns on an explicit 16-element list, column by column. -/
theorem invMixColumns_explicit (x0 x1 x2 x3 x4 x5 x6 x7 x8 x9 x10 x11 x12 x13 x14 x15 : Nat) :
    invMixColumns [x0, x1, x2, x3, x4, x5, x6, x7, x8, x9, x10, x11, x12, x13, x14, x15] =
      invMixCol x0 x1 x2 x3 ++ invMixCol x4 x5 x6 x7 ++
      invMixCol x8 x9 x10 x11 ++ invMixCol x12 x13 x14 x15 := rfl

/-- InvMixColumns inverts MixColumns on bounded 16-byte states. -/
theorem invMixColumns_mixColumns (l : List Nat) (h : l.length = 16)
    (hb : ∀ b ∈ l, b < 256) :
    invMixColumns (mixColumns l) = l := by
  have hg : ∀ i, l.getD i 0 < 256 := getD_lt_256 hb
  have hmc : mixColumns l =
      [mul2 (l.getD 0 0) ^^^ mul3 (l.getD 1 0) ^^^ l.getD 2 0 ^^^ l.getD 3 0,
       l.getD 0 0 ^^^ mul2 (l.getD 1 0) ^^^ mul3 (l.getD 2 0) ^^^ l.getD 3 0,
       l.getD 0 0 ^^^ l.getD 1 0 ^^^ mul2 (l.getD 2 0) ^^^ mul3 (l.getD 3 0),
       mul3 (l.getD 0 0) ^^^ l.getD 1 0 ^^^ l.getD 2 0 ^^^ mul2 (l.getD 3 0),
       mul2 (l.getD 4 0) ^^^ mul3 (l.getD 5 0) ^^^ l.getD 6 0 ^^^ l.getD 7 0,
       l.getD 4 0 ^^^ mul2 (l.getD 5 0) ^^^ mul3 (l.getD 6 0) ^^^ l.getD 7 0,
       l.getD 4 0 ^^^ l.getD 5 0 ^^^ mul2 (l.getD 6 0) ^^^ mul3 (l.getD 7 0),
       mul3 (l.getD 4 0) ^^^ l.getD 5 0 ^^^ l.getD 6 0 ^^^ mul2 (l.getD 7 0),
       mul2 (l.getD 8 0) ^^^ mul3 (l.getD 9 0) ^^^ l.getD 10 0 ^^^ l.getD 11 0,
       l.getD 8 0 ^^^ mul2 (l.getD 9 0) ^^^ mul3 (l.getD 10 0) ^^^ l.getD 11 0,
       l.getD 8 0 ^^^ l.getD 9 0 ^^^ mul2 (l.getD 10 0) ^^^ mul3 (l.getD 11 0),
       mul3 (l.getD 8 0) ^^^ l.getD 9 0 ^^^ l.getD 10 0 ^^^ mul2 (l.getD 11 0),
       mul2 (l.getD 12 0) ^^^ mul3 (l.getD 13 0) ^^^ l.getD 14 0 ^^^ l.getD 15 0,
       l.getD 12 0 ^^^ mul2 (l.getD 13 0) ^^^ mul3 (l.getD 14 0) ^^^ l.getD 15 0,
       l.getD 12 0 ^^^ l.getD 13 0 ^^^ mul2 (l.getD 14 0) ^^^ mul3 (l.getD 15 0),
       mul3 (l.getD 12 0) ^^^ l.getD 13 0 ^^^ l.getD 14 0 ^^^ mul2 (l.getD 15 0)] := rfl
  rw [hmc, invMixColumns_explicit,
      invMixCol_mixCol _ _ _ _ (hg 0) (hg 1) (hg 2) (hg 3),
      invMixCol_mixCol _ _ _ _ (hg 4) (hg 5) (hg 6) (hg 7),
      invMixCol_mixCol _ _ _ _ (hg 8) (hg 9) (hg 10) (hg 11),
      invMixCol_mixCol _ _ _ _ (hg 12) (hg 13) (hg 14) (hg 15)]
  conv_rhs => rw [eta16 l h]
  rfl

/-- The decryption rounds invert the encryption rounds. -/
theorem decRounds_encRounds :
    ∀ (ks : List (List Nat)), (∀ k ∈ ks, k.length = 16 ∧ ∀ x ∈ k, x < 256) →
    ∀ (s : List Nat), s.length = 16 → (∀ x ∈ s, x < 256) →
    decRounds ks (encRounds ks s) = s := by
  intro ks
  induction ks with
  | nil => intro _ s _ _; rfl
  | cons k rest ih =>
    intro hks s hlen hsb
    have hk := hks k (List.mem_cons_self _ _)
    cases rest with
    | nil =>
      show invSubBytes (invShiftRows (addRoundKey k (addRoundKey k (shiftRows (subBytes s))))) = s
      rw [addRoundKey_cancel k _ (by simp [shiftRows_length, hk.1]),
          invShiftRows_shiftRows _ (by simp [subBytes_length, hlen]),
          invSubBytes_subBytes _ hsb]
    | cons k' t =>
      show decRounds (k :: k' :: t) (encRounds (k' :: t)
            (addRoundKey k (mixColumns (shiftRows (subBytes s))))) = s
      show invSubBytes (invShiftRows (invMixColumns (addRoundKey k
            (decRounds (k' :: t) (encRounds (k' :: t)
              (addRoundKey k (mixColumns (shiftRows (subBytes s))))))))) = s
      have hmb : ∀ x ∈ mixColumns (shiftRows (subBytes s)), x < 256 :=
        mixColumns_bounded (shiftRows_bounded (subBytes_bounded s))
      rw [ih (fun q hq => hks q (List.mem_cons_of_mem _ hq)) _
            (by simp [addRoundKey_length, mixColumns_length, hk.1])
            (addRoundKey_bounded hk.2 hmb),
          addRoundKey_cancel k _ (by simp [mixColumns_length, hk.1]),
          invMixColumns_mixColumns _ (by simp [shiftRows_length]) (shiftRows_bounded (subBytes_bounded s)),
          invShiftRows_shiftRows _ (by simp [subBytes_length, hlen]),
          invSubBytes_subBytes _ hsb]

/-- AES block decryption inverts block encryption for a valid key. -/
theorem aesDecBlock_aesEncBlock (key b : List Nat) (hk : KeyOK key) (hlen : b.length = 16)
    (hbb : ∀ x ∈ b, x < 256) : aesDecBlock key (aesEncBlock key b) = b := by
  unfold aesDecBlock aesEncBlock
  cases hrk : roundKeys key with
  | nil => rfl
  | cons k0 rest =>
    have hok := roundKeys_ok hk
    have hk0 := hok k0 (by rw [hrk]; exact List.mem_cons_self _ _)
    show addRoundKey k0 (decRounds rest (encRounds rest (addRoundKey k0 b))) = b
    rw [decRounds_encRounds rest (fun q hq => hok q (by rw [hrk]; exact List.mem_cons_of_mem _ hq)) _
          (by simp [addRoundKey_length, hlen, hk0.1])
          (addRoundKey_bounded hk0.2 hbb),
        addRoundKey_cancel k0 b (by rw [hlen, hk0.1])]

/-- Fueled CBC decryption inverts fueled CBC encryption. -/
theorem cbcDecF_cbcEncF (key : List Nat) (hk : KeyOK key) :
    ∀ (f : Nat) (iv data : List Nat), data.length ≤ f → 16 ∣ data.length →
    iv.length = 16 → (∀ x ∈ iv, x < 256) → (∀ x ∈ data, x < 256) →
    cbcDecF key f iv (cbcEncF key f iv data) = data := by
  intro f
  induction f with
  | zero =>
    intro iv data hle _ _ _ _
    have hdn : data = [] := List.length_eq_zero.mp (by omega)
    simp [cbcEncF, cbcDecF, hdn]
  | succ f ih =>
    intro iv data hle hdvd hivl hivb hdb
    by_cases hnil : data = []
    · simp [cbcEncF, cbcDecF, hnil]
    · have hdpos : 0 < data.length := List.length_pos.mpr hnil
      have h16 : 16 ≤ data.length := by
        rcases hdvd with ⟨c, hc⟩
        rcases Nat.eq_zero_or_pos c with h0 | hcpos
        · omega
        · omega
      have htl : (data.take 16).length = 16 := by simp [List.length_take]; omega
      have hxl : (List.zipWith (fun x y => x ^^^ y) iv (data.take 16)).length = 16 := by
        simp [List.length_zipWith, hivl]; omega
      have hxb : ∀ x ∈ List.zipWith (fun x y => x ^^^ y) iv (data.take 16), x < 256 :=
        zipWith_xor_bounded hivb (fun a ha => hdb a (List.mem_of_mem_take ha))
      have hcl : (aesEncBlock key (List.zipWith (fun x y => x ^^^ y) iv (data.take 16))).length = 16 :=
        aesEncBlock_length hk _
      have hcb : ∀ x ∈ aesEncBlock key (List.zipWith (fun x y => x ^^^ y) iv (data.take 16)), x < 256 :=
        aesEncBlock_bounded hk _ hxb
      have hcne : aesEncBlock key (List.zipWith (fun x y => x ^^^ y) iv (data.take 16)) ≠ [] := by
        intro hcon
        rw [hcon] at hcl
        simp at hcl
      rw [cbcEncF, if_neg hnil]
      rw [cbcDecF]
      rw [if_neg (by simp [hcne])]
      dsimp only
      rw [List.take_append_of_le_length (by omega), List.take_of_length_le (by omega),
          List.drop_append_of_le_length (by omega), List.drop_of_length_le (by omega),
          List.nil_append,
          aesDecBlock_aesEncBlock key _ hk hxl hxb,
          zipWith_xor_cancel_left iv (data.take 16) (by omega),
          ih _ (data.drop 16) (by simp [List.length_drop]; omega)
            (by rcases hdvd with ⟨m, hm⟩; exact ⟨m - 1, by simp [List.length_drop]; omega⟩)
            hcl hcb (fun a ha => hdb a (List.mem_of_mem_drop ha))]
      exact List.take_append_drop 16 data

/-- CBC decryption inverts CBC encryption on aligned bounded data. -/
theorem cbcDec_cbcEnc (key iv data : List Nat) (hk : KeyOK key) (hdvd : 16 ∣ data.length)
    (hivl : iv.length = 16) (hivb : ∀ x ∈ iv, x < 256) (hdb : ∀ x ∈ data, x < 256) :
    cbcDec key iv (cbcEnc key iv data) = data := by
  unfold cbcDec cbcEnc
  rw [cbcEncF_length hk data.length iv data (Nat.le_refl _) hdvd]
  exact cbcDecF_cbcEncF key hk data.length iv data (Nat.le_refl _) hdvd hivl hivb hdb

/-- Trailing zeros after the 0x80 terminator are stripped exactly. -/
theorem dropTrailingZeros_append (l : List Nat) (k : Nat) :
    dropTrailingZeros (l ++ 0x80 :: List.replicate k 0) = l ++ [0x80] := by
  unfold dropTrailingZeros
  rw [List.reverse_append]
  simp [List.dropWhile_append]

/-- Unpadding inverts padding. -/
theorem unpad80_pad80 (l : List Nat) : unpad80 (pad80 l 16) 16 = some l := by
  unfold unpad80 pad80
  rw [dropTrailingZeros_append]
  simp

/-- The beginRmaSL prologue changes neither logCh, SENC nor SMAC. -/
theorem rmaTransfer_frame2 (s t : SCP03) (h : SCP03.rmaTransfer s = some t) :
    t.logCh = s.logCh ∧ t.SENC = s.SENC ∧ t.SMAC = s.SMAC := by
  unfold SCP03.rmaTransfer at h
  split at h
  · injection h with h
    subst h
    exact ⟨rfl, rfl, rfl⟩
  · split at h
    · exact Option.noConfusion h
    · injection h with h
      subst h
      exact ⟨rfl, rfl, rfl⟩

/-- The last 8 bytes of an append with an 8-byte suffix are that suffix. -/
theorem lastN_append (x y : List Nat) (h : y.length = 8) : lastN 8 (x ++ y) = y := by
  unfold lastN
  rw [List.length_append, h]
  rw [show x.length + 8 - 8 = x.length from by omega]
  exact List.drop_left x y

/-- Dropping the final 8 bytes of an append with an 8-byte suffix. -/
theorem take_sub_append (x y : List Nat) (h : y.length = 8) :
    (x ++ y).take ((x ++ y).length - 8) = x := by
  rw [List.length_append, h, show x.length + 8 - 8 = x.length from by omega]
  exact List.take_left x y

/-- The C-MAC verification stage of `unwrapAPDU` inverts the C-MAC stage of
`wrapAPDU` when run from the same (rewound) session state. -/
theorem unwrapMac_wrapMac (s : SCP03) (sl scla : Nat) (hdr : List Nat) (lc : Nat)
    (cdata : List Nat) (s' : SCP03) (cd2 : List Nat) (lc2 : Nat)
    (hsmac : ∀ k, s.SMAC = some k → KeyOK k)
    (hw : SCP03.wrapMac s sl scla hdr lc cdata = some (s', cd2, lc2)) :
    SCP03.unwrapMac s sl scla hdr lc2 cd2 = some (s', cdata, lc) := by
  unfold SCP03.wrapMac at hw
  unfold SCP03.unwrapMac
  split at hw
  · rename_i hsl1
    rw [if_pos hsl1]
    split at hw
    · exact Option.noConfusion hw
    rename_i hle
    split at hw
    · rename_i mc smac hmc hsm
      dsimp only at hw
      injection hw with hw
      injection hw with h1 h2
      injection h2 with h2 h3
      subst h1 h2 h3
      have hcl : (CMACf smac (mc ++ [scla] ++ hdr ++ [lc + 8] ++ cdata)).length = 16 :=
        CMACf_length _ _ (hsmac smac hsm)
      rw [if_neg (show ¬(lc + 8 < 8) from by omega)]
      dsimp only
      rw [take_sub_append _ _ (by rw [List.length_take, hcl]; decide), 
          lastN_append _ _ (by rw [List.length_take, hcl]; decide), if_pos rfl,
          show lc + 8 - 8 = lc from by omega]
    · exact Option.noConfusion hw
  · rename_i hsl1
    rw [if_neg hsl1]
    injection hw with hw
    injection hw with h1 h2
    injection h2 with h2 h3
    subst h1 h2 h3
    rfl

/-- A successful ICV encoding yields 16 genuine bytes. -/
theorem icvBytes_ok (n : Nat) (icvb : List Nat) (h : SCP03.icvBytes n = some icvb) :
    icvb.length = 16 ∧ ∀ x ∈ icvb, x < 256 := by
  unfold SCP03.icvBytes at h
  split at h
  · injection h with h
    subst h
    constructor
    · simp [beBytes_length]
    · intro x hx
      rcases List.mem_append.mp hx with hm | hm
      · exact beBytes_bounded _ _ x hm
      · exact beBytes_bounded _ _ x hm
  · exact Option.noConfusion h

/-- The C-ENC decryption stage of `unwrapAPDU` inverts the C-ENC stage of
`wrapAPDU` when the session encryption key is a valid AES key. -/
theorem unwrapDec_wrapEnc (s t : SCP03) (sl n lc0 : Nat) (cdata0 cd1 : List Nat) (lc1 : Nat)
    (hsenc : t.SENC = s.SENC) (hkey : ∀ k, s.SENC = some k → KeyOK k)
    (hlc0 : lc0 = cdata0.length) (hb : ∀ x ∈ cdata0, x < 256)
    (hw : SCP03.wrapEnc s sl n lc0 cdata0 = some (cd1, lc1)) :
    SCP03.unwrapDec t sl n lc1 cd1 = some (cdata0, lc0) := by
  unfold SCP03.wrapEnc at hw
  unfold SCP03.unwrapDec
  split at hw
  · rename_i hcond
    split at hw
    · rename_i senc icvb hsencv hicv
      dsimp only at hw
      split at hw
      swap
      · exact Option.noConfusion hw
      rename_i hlen
      injection hw with hw
      injection hw with h1 h2
      subst h1 h2
      have hks : KeyOK senc := hkey senc hsencv
      obtain ⟨hivl, hivb⟩ := icvBytes_ok n icvb hicv
      have hpdvd : 16 ∣ (pad80 cdata0 16).length := pad80_dvd cdata0
      have hclen : (cbcEnc senc (aesEncBlock senc icvb) (pad80 cdata0 16)).length =
          (pad80 cdata0 16).length := cbcEnc_length hks _ _ hpdvd
      have hppos : 0 < (pad80 cdata0 16).length := by
        rw [pad80_length]
        have := Nat.mod_lt cdata0.length (y := 16) (by omega)
        omega
      rw [if_pos ⟨hcond.1, by omega⟩]
      rw [if_neg (show ¬(cbcEnc senc (aesEncBlock senc icvb) (pad80 cdata0 16)).length % 16 ≠ 0
            from by rw [hclen]; rcases hpdvd with ⟨m, hm⟩; omega)]
      rw [hsenc, hsencv, hicv]
      dsimp only
      rw [cbcDec_cbcEnc senc _ _ hks hpdvd (aesEncBlock_length hks _)
            (aesEncBlock_bounded hks _ hivb) (pad80_bounded hb),
          unpad80_pad80]
      dsimp only
      rw [if_neg (show ¬cdata0.length = 0 from by omega), hlc0]
    · exact Option.noConfusion hw
  · rename_i hcond
    injection hw with hw
    injection hw with h1 h2
    subst h1 h2
    rw [if_neg (show ¬(sl &&& 2 ≠ 0 ∧ 0 < lc0) from hcond)]

/-- An APDU of length at least 5 is its 5 header bytes plus its data. -/
theorem apdu_eta5 (l : List Nat) (h : 5 ≤ l.length) :
    l = l.getD 0 0 :: l.getD 1 0 :: l.getD 2 0 :: l.getD 3 0 :: l.getD 4 0 :: l.drop 5 := by
  rcases l with _ | ⟨a, _ | ⟨b, _ | ⟨c, _ | ⟨d, _ | ⟨e, rest⟩⟩⟩⟩⟩
  · simp at h
  · simp at h
  · simp at h
  · simp at h
  · simp at h
  · rfl

/-- Bytes 1-3 of a list of length at least 4, as `getD` entries. -/
theorem drop1_take3 (l : List Nat) (h : 4 ≤ l.length) :
    (l.drop 1).take 3 = [l.getD 1 0, l.getD 2 0, l.getD 3 0] := by
  rcases l with _ | ⟨a, _ | ⟨b, _ | ⟨c, _ | ⟨d, rest⟩⟩⟩⟩
  · simp at h
  · simp at h
  · simp at h
  · simp at h
  · rfl

/-- What a successful `checkAPDU` guarantees for a non-GET-RESPONSE APDU. -/
theorem checkAPDU_inv (apdu : List Nat) (lc : Nat) (hins : apdu.getD 1 0 ≠ 0xC0)
    (h : SCP03.checkAPDU apdu = some lc) :
    5 ≤ apdu.length ∧ lc = apdu.length - 5 ∧
      ¬(apdu.getD 1 0 &&& 0xF0 = 0x60 ∨ apdu.getD 1 0 &&& 0xF0 = 0x90) := by
  unfold SCP03.checkAPDU at h
  split at h
  · exact Option.noConfusion h
  rename_i hl2
  dsimp only at h
  rw [if_neg hins] at h
  split at h
  · exact Option.noConfusion h
  rename_i hflags
  split at h
  · exact Option.noConfusion h
  rename_i hl5
  split at h
  · injection h with h
    exact ⟨by omega, h.symm, hflags⟩
  · exact Option.noConfusion h

/-- `checkAPDU` accepts a rebuilt APDU whose Lc byte matches its data. -/
theorem checkAPDU_build (c0 i1 i2 i3 lcw : Nat) (cdata : List Nat)
    (hlen : cdata.length = lcw) (h1 : i1 ≠ 0xC0)
    (h2 : ¬(i1 &&& 0xF0 = 0x60 ∨ i1 &&& 0xF0 = 0x90)) :
    SCP03.checkAPDU (c0 :: i1 :: i2 :: i3 :: lcw :: cdata) = some lcw := by
  unfold SCP03.checkAPDU
  rw [if_neg (show ¬(c0 :: i1 :: i2 :: i3 :: lcw :: cdata).length < 2 from by simp)]
  dsimp only
  rw [if_neg (by simpa using h1), if_neg (by simpa using h2),
      if_neg (show ¬(c0 :: i1 :: i2 :: i3 :: lcw :: cdata).length < 5 from by simp)]
  rw [if_pos (Or.inr (show (c0 :: i1 :: i2 :: i3 :: lcw :: cdata).getD 4 0 =
        (c0 :: i1 :: i2 :: i3 :: lcw :: cdata).length - 5 from by simp [hlen]))]
  simp [hlen]

/-- The C-ENC stage returns data whose length equals the returned Lc. -/
theorem wrapEnc_len (s : SCP03) (sl n lc0 : Nat) (cdata0 cd1 : List Nat) (lc1 : Nat)
    (hlc0 : cdata0.length = lc0)
    (hw : SCP03.wrapEnc s sl n lc0 cdata0 = some (cd1, lc1)) : cd1.length = lc1 := by
  unfold SCP03.wrapEnc at hw
  split at hw
  · split at hw
    · rename_i senc icvb hsencv hicv
      dsimp only at hw
      split at hw
      swap
      · exact Option.noConfusion hw
      injection hw with hw
      injection hw with h1 h2
      subst h1 h2
      rfl
    · exact Option.noConfusion hw
  · injection hw with hw
    injection hw with h1 h2
    subst h1 h2
    exact hlc0

/-- The C-MAC stage returns data whose length equals the returned Lc. -/
theorem wrapMac_len (s : SCP03) (sl scla : Nat) (hdr : List Nat) (lc : Nat)
    (cdata : List Nat) (s' : SCP03) (cd2 : List Nat) (lc2 : Nat)
    (hsmac : ∀ k, s.SMAC = some k → KeyOK k) (hlen : cdata.length = lc)
    (hw : SCP03.wrapMac s sl scla hdr lc cdata = some (s', cd2, lc2)) : cd2.length = lc2 := by
  unfold SCP03.wrapMac at hw
  split at hw
  · split at hw
    · exact Option.noConfusion hw
    split at hw
    · rename_i mc smac hmc hsm
      dsimp only at hw
      injection hw with hw
      injection hw with h1 h2
      injection h2 with h2 h3
      subst h1 h2 h3
      have hcl := CMACf_length smac (mc ++ [scla] ++ hdr ++ [lc + 8] ++ cdata) (hsmac smac hsm)
      have hcl2 : (CMACf smac (mc ++ scla :: (hdr ++ (lc + 8) :: cdata))).length = 16 := by
        simpa using hcl
      simp [List.length_take, hcl2, hlen]
    · exact Option.noConfusion hw
  · injection hw with hw
    injection hw with h1 h2
    injection h2 with h2 h3
    subst h1 h2 h3
    exact hlen

/-- C2 (amended): for a channel-0 session, `unwrapAPDU` run on the rewound
pre-wrap state inverts `wrapAPDU` for every APDU that wraps successfully
with a Lc byte equal to its data length and genuine bytes, PROVIDED the
cleartext CLA is 0x00 or 0x80; the claim as stated omits the CLA
restriction, and wrapping is lossy for other CLA bytes the code accepts
(for example 0x88), because unwrap rebuilds the CLA from the logical
channel alone.  Any installed SL works; session keys must be valid AES
keys where used. -/
theorem wrap_unwrap_roundtrip (s : SCP03) (apdu : List Nat) (s' : SCP03) (w : List Nat)
    (hch : s.logCh = some 0)
    (hcla : apdu.getD 0 0 = 0 ∨ apdu.getD 0 0 = 0x80)
    (hins : apdu.getD 1 0 ≠ 0xC0)
    (hlc : apdu.getD 4 0 = apdu.length - 5)
    (hb : ∀ x ∈ apdu, x < 256)
    (hsenc : ∀ k, s.SENC = some k → KeyOK k)
    (hsmac : ∀ k, s.SMAC = some k → KeyOK k)
    (hw : SCP03.wrapAPDU s apdu = some (s', w)) :
    ∃ u, SCP03.unwrapAPDU s w = some (u, apdu) := by
  unfold SCP03.wrapAPDU at hw
  split at hw
  · exact Option.noConfusion hw
  rename_i lc hck
  rw [if_neg hins] at hw
  split at hw
  · exact Option.noConfusion hw
  rename_i s1 hrma
  split at hw
  · exact Option.noConfusion hw
  rename_i n0 hn0
  dsimp only at hw
  split at hw
  · exact Option.noConfusion hw
  rename_i u0 hclchk
  split at hw
  · exact Option.noConfusion hw
  rename_i sl hsl
  split at hw
  · exact Option.noConfusion hw
  rename_i cdata1 lc1 hwe
  split at hw
  · exact Option.noConfusion hw
  rename_i s3 cdata2 lc2 hwm
  split at hw
  · exact Option.noConfusion hw
  rename_i claOut hcf
  injection hw with hw
  injection hw with h1 h2
  subst h1
  subst h2
  obtain ⟨h5, hlceq, hflags⟩ := checkAPDU_inv apdu lc hins hck
  obtain ⟨hchf, hsencf, hsmacf⟩ := rmaTransfer_frame2 s s1 hrma
  have hch1 : s1.logCh = some 0 := hchf.trans hch
  have hb8 : apdu.getD 0 0 &&& 128 = apdu.getD 0 0 := by
    rcases hcla with h | h <;> rw [h] <;> decide
  have hfacts : (apdu.getD 0 0 + 4) &&& 128 = apdu.getD 0 0 ∧
      ¬((apdu.getD 0 0 + 4) &&& 4 = 0) ∧
      ¬(((apdu.getD 0 0 + 4) &&& 64 = 0 ∧ (apdu.getD 0 0 + 4) &&& 3 > 0) ∨
        (apdu.getD 0 0 + 4) &&& 64 ≠ 0) := by
    rcases hcla with h | h <;> rw [h] <;> exact ⟨by decide, by decide, by decide⟩
  have hlen1 : (apdu.drop 5).length = lc := by rw [List.length_drop]; omega
  have hsmac2 : ∀ k, s1.SMAC = some k → KeyOK k := fun k hk => hsmac k (hsmacf ▸ hk)
  have hsenc2 : ∀ k, s1.SENC = some k → KeyOK k := fun k hk => hsenc k (hsencf ▸ hk)
  have hlen2 : cdata1.length = lc1 := wrapEnc_len _ _ _ _ _ _ _ hlen1 hwe
  have hlen3 : cdata2.length = lc2 :=
    wrapMac_len { s1 with cmdCount := some (n0 + 1) } sl (apdu.getD 0 0 &&& 128 ||| 4)
      (List.take 3 (List.drop 1 apdu)) lc1 cdata1 s3 cdata2 lc2 hsmac2 hlen2 hwm
  have hsenc3 : s3.SENC = s1.SENC := by
    unfold SCP03.wrapMac at hwm
    split at hwm
    · split at hwm
      · exact Option.noConfusion hwm
      split at hwm
      · dsimp only at hwm
        injection hwm with hwm
        injection hwm with h1 h2
        rw [← h1]
      · exact Option.noConfusion hwm
    · injection hwm with hwm
      injection hwm with h1 h2
      rw [← h1]
  have hlch3 : s3.logCh = some 0 := by
    unfold SCP03.wrapMac at hwm
    split at hwm
    · split at hwm
      · exact Option.noConfusion hwm
      split at hwm
      · dsimp only at hwm
        injection hwm with hwm
        injection hwm with h1 h2
        rw [← h1]
        exact hch1
      · exact Option.noConfusion hwm
    · injection hwm with hwm
      injection hwm with h1 h2
      rw [← h1]
      exact hch1
  unfold SCP03.CLAf at hcf
  have hcf3 : (match s3.logCh with
      | none => none
      | some ch => some (claByte ch true (apdu.getD 0 0 &&& 128))) = some claOut := hcf
  rw [hlch3] at hcf3
  injection hcf3 with hcf
  have hout : claOut = apdu.getD 0 0 + 4 := by
    rw [← hcf]
    unfold claByte
    rw [if_pos (show (0:Nat) < 4 from by omega), hb8]
    show apdu.getD 0 0 + 0 + 4 = apdu.getD 0 0 + 4
    omega
  rw [hb8] at hwm
  rw [drop1_take3 apdu (by omega)] at hwm
  rw [drop1_take3 apdu (by omega)]
  show ∃ u, SCP03.unwrapAPDU s
      (claOut :: apdu.getD 1 0 :: apdu.getD 2 0 :: apdu.getD 3 0 :: lc2 :: cdata2) = some (u, apdu)
  unfold SCP03.unwrapAPDU
  rw [hout]
  rw [checkAPDU_build _ _ _ _ _ _ hlen3 hins hflags]
  dsimp only
  simp only [List.getD_cons_succ, List.getD_cons_zero, List.drop_succ_cons, List.drop_zero,
    List.take_succ_cons, List.take_zero]
  rw [if_neg hins, hrma]
  dsimp only
  rw [hn0]
  dsimp only
  rw [if_neg hfacts.2.1]
  have hclc2 : SCP03.claCheck
      { s1 with cmdCount := some (n0 + 1) } true (apdu.getD 0 0 + 4) = some () := by
    unfold SCP03.claCheck
    rw [if_neg hfacts.2.2]
  rw [hclc2]
  dsimp only
  rw [hsl]
  rw [hsl] at hwe hwm
  dsimp only
  rw [hfacts.1]
  rw [unwrapMac_wrapMac { s1 with cmdCount := some (n0 + 1), SL := some sl } sl
        (apdu.getD 0 0 ||| 4) [apdu.getD 1 0, apdu.getD 2 0, apdu.getD 3 0] lc1 cdata1
        s3 cdata2 lc2 hsmac2 hwm]
  dsimp only
  rw [unwrapDec_wrapEnc { s1 with cmdCount := some (n0 + 1), SL := some sl } s3 sl (n0 + 1)
        lc (List.drop 5 apdu) cdata1 lc1 hsenc3 hsenc2 hlen1.symm
        (fun x hx => hb x (List.mem_of_mem_drop hx)) hwe]
  dsimp only
  have hcf2 : s3.CLAf false (apdu.getD 0 0) = some (apdu.getD 0 0) := by
    unfold SCP03.CLAf
    rw [hlch3]
    dsimp only
    show some (apdu.getD 0 0 + 0 + 0) = some (apdu.getD 0 0)
    norm_num
  rw [hcf2]
  dsimp only
  refine ⟨s3, ?_⟩
  conv_rhs => rw [apdu_eta5 apdu h5]
  rw [show lc = apdu.getD 4 0 from by omega]
  rfl

/-- Concrete wrap of `80 10 00 00 00` at SL=1 (spec S4). -/
theorem wrap_w1_eval :
    SCP03.wrapAPDU (sAuth 1 chain1L) [0x80, 0x10, 0, 0, 0] =
      some (sC3, [0x84, 0x10, 0, 0, 8] ++ chainW1L.take 8) := by decide

/-- C2 witness: the round trip at SL=1 on the section-8 test session and
the APDU `80 10 00 00 00`, with every hypothesis discharged concretely. -/
theorem wrap_unwrap_roundtrip_witness :
    ∃ u, SCP03.unwrapAPDU (sAuth 1 chain1L) ([0x84, 0x10, 0, 0, 8] ++ chainW1L.take 8) =
      some (u, [0x80, 0x10, 0, 0, 0]) :=
  wrap_unwrap_roundtrip (sAuth 1 chain1L) [0x80, 0x10, 0, 0, 0] sC3
    ([0x84, 0x10, 0, 0, 8] ++ chainW1L.take 8) (by decide) (Or.inr (by decide)) (by decide)
    (by decide) (by decide)
    (fun k hk => by
      injection hk with hk
      rw [← hk]
      exact ⟨Or.inl (by decide), by decide⟩)
    (fun k hk => by
      injection hk with hk
      rw [← hk]
      exact ⟨Or.inl (by decide), by decide⟩)
    wrap_w1_eval

/-- Counterexample to C2 as stated: at SL=0 on the test session the APDU
`88 10 00 00 00` passes wrap validation (channel-0 session, Lc matches),
but unwrapping the wrapped APDU returns CLA 0x80, not 0x88. -/
theorem wrap_unwrap_cla_counterexample :
    (SCP03.wrapAPDU (sAuth 0 chain0L) [0x88, 0x10, 0, 0, 0]).map (fun r => r.2) =
        some [0x84, 0x10, 0, 0, 0] ∧
      (SCP03.unwrapAPDU (sAuth 0 chain0L) [0x84, 0x10, 0, 0, 0]).map (fun r => r.2) =
        some [0x80, 0x10, 0, 0, 0] ∧
      ([0x80, 0x10, 0, 0, 0] : List Nat) ≠ [0x88, 0x10, 0, 0, 0] :=
  ⟨by decide, by decide, by decide⟩
